import Mathlib

/-!
Verification development for the `install-diff` CLI (src/index.js).

The file shallowly embeds the program's per-dependency pipeline:

* a character-level model of the strict parser, precedence comparison,
  `major`, `diff` and `maxSatisfying` operations of the npm `semver`
  library that `src/index.js` calls (the library is modelled at the level
  of its documented strict grammar and comparison algorithm; JavaScript
  float coercion of numeric prerelease identifiers at or above
  `Number.MAX_SAFE_INTEGER` is approximated by exact natural-number
  comparison, and `String.prototype.trim` by trimming ASCII whitespace);
* the resolver `getLatestVersion` (registry answers are modelled after
  the shapes `npm show ... --json` can produce: a thrown subprocess
  error, a JSON string, a JSON array of strings, or non-JSON text that
  is re-parsed line by line), `getInstallableVersion`,
  `getInstalledVersion`, and the classification / colouring / inclusion
  logic of `compareVersions`, with `console.warn` side effects made
  explicit as returned warning lists and `chalk` styling modelled as the
  ANSI escape sequences chalk emits;
* range satisfaction (`new Range(range).test(v)`) is external semver
  behaviour parameterised as an oracle `rsem : String → Option (String → Bool)`
  returning `none` exactly when the range text is not a valid range
  (in which case node's `maxSatisfying` returns `null`).
-/

/-! ## JS-style primitive helpers -/

/-- Three-way comparison of natural numbers, as JavaScript compares
numbers with `<` / `===`. -/
def cmpNat (a b : Nat) : Ordering :=
  if a < b then .lt else if a = b then .eq else .gt

/-- `Number.MAX_SAFE_INTEGER`. -/
def maxSafeInteger : Nat := 9007199254740991

/-- Numeric value of a digit string (most significant digit first). -/
def digitsVal (cs : List Char) : Nat :=
  cs.foldl (fun acc c => 10 * acc + (c.toNat - 48)) 0

/-- Trim leading and trailing whitespace, modelling `String.prototype.trim`
on the ASCII inputs relevant here. -/
def jsTrim (cs : List Char) : List Char :=
  ((cs.dropWhile Char.isWhitespace).reverse.dropWhile Char.isWhitespace).reverse

/-- Split a character list at every occurrence of `sep` (like
`String.prototype.split` with a single-character separator). -/
def splitOnChar (sep : Char) : List Char → List (List Char)
  | [] => [[]]
  | c :: cs =>
    if c = sep then [] :: splitOnChar sep cs
    else
      match splitOnChar sep cs with
      | [] => [[c]]
      | g :: gs => (c :: g) :: gs

/-! ## The semver data model (classes/semver.js) -/

/-- A prerelease identifier as stored by node-semver: all-numeric
identifiers below `MAX_SAFE_INTEGER` are stored as numbers, everything
else as the raw string. -/
inductive PreId where
  | num (n : Nat)
  | str (s : List Char)
deriving DecidableEq

/-- A parsed semantic version. -/
structure SemVer where
  major : Nat
  minor : Nat
  patch : Nat
  prerelease : List PreId
  build : List (List Char)
deriving DecidableEq

/-- Characters allowed in prerelease/build identifiers: `[0-9A-Za-z-]`. -/
def isIdChar (c : Char) : Bool := c.isDigit || c.isAlpha || c = '-'

/-- Whether every character is an ASCII digit (`/^[0-9]+$/` on a
nonempty string; emptiness is checked separately). -/
def allDigits (cs : List Char) : Bool := cs.all Char.isDigit

/-- Parse one numeric component `(0|[1-9]\d*)` of the main version,
greedy over digits, rejecting leading zeros and values beyond
`MAX_SAFE_INTEGER` (the SemVer constructor throws on those). -/
def parseMainNum (cs : List Char) : Option (Nat × List Char) :=
  match cs.span Char.isDigit with
  | (ds, rest) =>
    match ds with
    | [] => none
    | d :: ds' =>
      if d = '0' then
        if ds' = [] then some (0, rest) else none
      else
        let v := digitsVal (d :: ds')
        if v ≤ maxSafeInteger then some (v, rest) else none

/-- Consume a literal `.`. -/
def expectDot : List Char → Option (List Char)
  | '.' :: cs => some cs
  | _ => none

/-- A syntactically valid prerelease identifier:
`(?:0|[1-9]\d*|\d*[a-zA-Z-][a-zA-Z0-9-]*)`. -/
def validPreId (cs : List Char) : Bool :=
  !cs.isEmpty && cs.all isIdChar &&
    (!allDigits cs ||
      (match cs with
       | '0' :: _ :: _ => false
       | _ => true))

/-- A syntactically valid build identifier: `[0-9A-Za-z-]+`. -/
def validBuildId (cs : List Char) : Bool := !cs.isEmpty && cs.all isIdChar

/-- Convert a valid prerelease identifier to its stored form (numbers for
numeric identifiers below `MAX_SAFE_INTEGER`). -/
def toPreId (cs : List Char) : PreId :=
  if allDigits cs && digitsVal cs < maxSafeInteger then .num (digitsVal cs) else .str cs

/-- Parse the optional `-prerelease` and `+build` suffixes, anchored at
the end of the input. -/
def parseTail (cs : List Char) : Option (List PreId × List (List Char)) :=
  match cs with
  | [] => some ([], [])
  | '-' :: rest =>
    match rest.span (fun c => !(c = '+' : Bool)) with
    | (preCs, rest2) =>
      let ids := splitOnChar '.' preCs
      if ids.all validPreId then
        match rest2 with
        | [] => some (ids.map toPreId, [])
        | '+' :: bs =>
          let bids := splitOnChar '.' bs
          if bids.all validBuildId then some (ids.map toPreId, bids) else none
        | _ => none
      else none
  | '+' :: bs =>
    let bids := splitOnChar '.' bs
    if bids.all validBuildId then some ([], bids) else none
  | _ => none

/-- Parse a (trimmed) version string against node-semver's strict `FULL`
regular expression, which allows one optional leading `v`. -/
def parseSemVerChars (cs : List Char) : Option SemVer := do
  let cs := match cs with
    | 'v' :: rest => rest
    | _ => cs
  let (major, cs) ← parseMainNum cs
  let cs ← expectDot cs
  let (minor, cs) ← parseMainNum cs
  let cs ← expectDot cs
  let (patch, cs) ← parseMainNum cs
  let (pre, build) ← parseTail cs
  pure ⟨major, minor, patch, pre, build⟩

/-- `semver.parse` (strict): length cap of 256, trim, match the strict
grammar; `none` models node returning `null`. -/
def semverParse (s : String) : Option SemVer :=
  if s.data.length > 256 then none else parseSemVerChars (jsTrim s.data)

/-- Text of a stored prerelease identifier. -/
def preIdText : PreId → String
  | .num n => toString n
  | .str cs => String.mk cs

/-- Join strings with `.` separators. -/
def joinDots : List String → String
  | [] => ""
  | [s] => s
  | s :: rest => s ++ "." ++ joinDots rest

/-- `SemVer.prototype.format`: `major.minor.patch[-prerelease]`; build
metadata is not part of the formatted version. -/
def SemVer.format (v : SemVer) : String :=
  let main := toString v.major ++ "." ++ toString v.minor ++ "." ++ toString v.patch
  if v.prerelease.isEmpty then main
  else main ++ "-" ++ joinDots (v.prerelease.map preIdText)

/-- `semver.valid`: the normalized version string of a parseable input,
otherwise `none` (node returns `null`). -/
def semverValid (s : String) : Option String := (semverParse s).map SemVer.format

/-- `semver.major`; only meaningful on valid versions (node throws on
invalid input, which the program rules out before calling it). -/
def semverMajor (s : String) : Nat := ((semverParse s).map SemVer.major).getD 0

/-! ## semver precedence comparison (compare-identifiers.js, comparePre) -/

/-- The numeric value of an identifier when `/^[0-9]+$/` matches it
(stored numbers always count as numeric). -/
def idNumVal : PreId → Option Nat
  | .num n => some n
  | .str cs => if !cs.isEmpty && allDigits cs then some (digitsVal cs) else none

/-- JS code-unit lexicographic comparison of strings. -/
def cmpCharList : List Char → List Char → Ordering
  | [], [] => .eq
  | [], _ :: _ => .lt
  | _ :: _, [] => .gt
  | a :: as, b :: bs => (cmpNat a.toNat b.toNat).then (cmpCharList as bs)

/-- Raw text of an identifier (only used when it is non-numeric). -/
def idText : PreId → List Char
  | .num _ => []
  | .str cs => cs

/-- `compareIdentifiers`: numeric identifiers compare numerically and
sort below non-numeric ones; non-numeric identifiers compare as JS
strings. -/
def cmpId (a b : PreId) : Ordering :=
  match idNumVal a, idNumVal b with
  | some m, some n => cmpNat m n
  | some _, none => .lt
  | none, some _ => .gt
  | none, none => cmpCharList (idText a) (idText b)

/-- The identifier-by-identifier loop of `comparePre`: a missing field
sorts below a present one. -/
def cmpIds : List PreId → List PreId → Ordering
  | [], [] => .eq
  | _ :: _, [] => .gt
  | [], _ :: _ => .lt
  | a :: as, b :: bs => (cmpId a b).then (cmpIds as bs)

/-- `comparePre`: a version without prerelease sorts above any version
with one; two prerelease lists compare with `cmpIds`. -/
def cmpPre (a b : List PreId) : Ordering :=
  match a, b with
  | [], [] => .eq
  | _ :: _, [] => .lt
  | [], _ :: _ => .gt
  | _ :: _, _ :: _ => cmpIds a b

/-- `SemVer.prototype.compare`: main triple, then prerelease. -/
def semverCmp (x y : SemVer) : Ordering :=
  (cmpNat x.major y.major).then
    ((cmpNat x.minor y.minor).then
      ((cmpNat x.patch y.patch).then (cmpPre x.prerelease y.prerelease)))

/-- `semver.compare` on version strings (both assumed parseable where it
matters; `eq` is returned as a junk value otherwise). -/
def semverCmpStr (a b : String) : Ordering :=
  match semverParse a with
  | none => .eq
  | some x =>
    match semverParse b with
    | none => .eq
    | some y => semverCmp x y

/-! ## semver.diff (functions/diff.js) -/

/-- `semver.diff`: the semantic distance between two versions, `none`
when they have equal precedence. -/
def semverDiff (a b : String) : Option String :=
  match semverParse a, semverParse b with
  | some v1, some v2 =>
    let comparison := semverCmp v1 v2
    if comparison = .eq then none
    else
      let high := if comparison = .gt then v1 else v2
      let low := if comparison = .gt then v2 else v1
      let highHasPre := !high.prerelease.isEmpty
      let lowHasPre := !low.prerelease.isEmpty
      if lowHasPre && !highHasPre then
        if low.patch = 0 ∧ low.minor = 0 then some "major"
        else if high.patch ≠ 0 then some "patch"
        else if high.minor ≠ 0 then some "minor"
        else some "major"
      else
        let p := if highHasPre then "pre" else ""
        if v1.major ≠ v2.major then some (p ++ "major")
        else if v1.minor ≠ v2.minor then some (p ++ "minor")
        else if v1.patch ≠ v2.patch then some (p ++ "patch")
        else some "prerelease"
  | _, _ => none

/-! ## chalk styling (modelled as the ANSI sequences chalk emits) -/

/-- `chalk.red`. -/
def chalkRed (s : String) : String := "\x1b[31m" ++ s ++ "\x1b[39m"

/-- `chalk.green`. -/
def chalkGreen (s : String) : String := "\x1b[32m" ++ s ++ "\x1b[39m"

/-- `chalk.yellow`. -/
def chalkYellow (s : String) : String := "\x1b[33m" ++ s ++ "\x1b[39m"

/-- `chalk.cyan`. -/
def chalkCyan (s : String) : String := "\x1b[36m" ++ s ++ "\x1b[39m"

/-- `chalk.italic.gray`. -/
def chalkItalicGray (s : String) : String := "\x1b[3m\x1b[90m" ++ s ++ "\x1b[39m\x1b[23m"

/-! ## The registry answer model and `getLatestVersion` (src/index.js:56-93)

`npm show <name>@<spec> version --json` is run through `execSync`; the
raw (trimmed) output is `JSON.parse`d, falling back to a line-by-line
regex scrape when that throws.  The answer is modelled after those
cases.  Range satisfaction, `new Range(range).test`, is an oracle
`rsem : String → Option (String → Bool)` with `rsem r = none` exactly
when `r` is not a valid range (node's `maxSatisfying` then returns
`null`; the program exploits this for the `"latest"` tag). -/

/-- The possible outcomes of the `execSync` + parse step in
`getLatestVersion`. -/
inductive NpmAnswer where
  | execFailure (msg : String)
  | jsonString (v : String)
  | jsonArray (vs : List String)
  | nonJson (text : String)
deriving DecidableEq

/-- A quote character, `'` or `"`. -/
def isQuoteChar (c : Char) : Bool := c.toNat = 39 || c = '"'

/-- Lazily grow the capture group of `/['"](.+?)['"]/` until a closing
quote is found; `acc` holds the capture so far, reversed. -/
def grabCapture (acc : List Char) : List Char → Option (List Char)
  | [] => none
  | d :: ds => if isQuoteChar d then some acc.reverse else grabCapture (d :: acc) ds

/-- After an opening quote, match `(.+?)['"]`: at least one captured
character, then the nearest quote. -/
def findClose : List Char → Option (List Char)
  | [] => none
  | c :: cs => grabCapture [c] cs

/-- `line.match(/['"](.+?)['"]/)?.[1]`: leftmost opening quote that has a
closing quote at distance at least two, with the shortest capture. -/
def extractQuoted : List Char → Option (List Char)
  | [] => none
  | c :: cs =>
    if isQuoteChar c then
      match findClose cs with
      | some cap => some cap
      | none => extractQuoted cs
    else extractQuoted cs

/-- The string-parsing fallback of `getLatestVersion`: split the output
on newlines, scrape the first quoted fragment of each line, drop lines
without one. -/
def fallbackVersions (text : String) : List String :=
  ((splitOnChar '\x0a' text.data).filterMap extractQuoted).map String.mk

/-- Normalize a (non-failure) registry answer into the `versions` array:
a JSON string is wrapped in a singleton (`Array.isArray` check), a JSON
array is used as-is, non-JSON text goes through the line scraper. -/
def normalizeAnswer : NpmAnswer → List String
  | .execFailure _ => []
  | .jsonString v => [v]
  | .jsonArray vs => vs
  | .nonJson text => fallbackVersions text

/-- A resolver result together with the warnings printed on the way
(`console.warn` made explicit). -/
structure Resolved where
  value : String
  warnings : List String
deriving DecidableEq

/-- The accumulation loop of node-semver's `maxSatisfying`: keep the
first candidate passing the range test, replace it whenever a later
passing candidate compares strictly higher. -/
def maxSatAux (test : String → Bool) : Option String → List String → Option String
  | acc, [] => acc
  | none, v :: vs => if test v then maxSatAux test (some v) vs else maxSatAux test none vs
  | some m, v :: vs =>
    if test v then
      if semverCmpStr m v = .lt then maxSatAux test (some v) vs else maxSatAux test (some m) vs
    else maxSatAux test (some m) vs

/-- `semver.maxSatisfying(versions, range)`: `none` when the range text
itself is invalid, otherwise the highest version passing the range
test. -/
def maxSatisfying (versions : List String) (range : String)
    (rsem : String → Option (String → Bool)) : Option String :=
  match rsem range with
  | none => none
  | some test => maxSatAux test none versions

/-- The non-throwing tail of `getLatestVersion` (src/index.js:76-88),
applied to the normalized `versions` array: keep only valid semver
entries, return the "Unable to determine" sentinel (plus warning) when
none remain, and otherwise
`maxSatisfying(validVersions, versionRange) || validVersions[validVersions.length - 1]`. -/
def getLatestFromList (packageName : String) (versions : List String) (versionRange : String)
    (rsem : String → Option (String → Bool)) : Resolved :=
  let validVersions := versions.filter (fun v => (semverValid v).isSome)
  if validVersions.isEmpty then
    ⟨"Unable to determine", ["No valid versions found for " ++ packageName]⟩
  else
    ⟨(maxSatisfying validVersions versionRange rsem).getD (validVersions.getLastD ""), []⟩

/-- `getLatestVersion(packageName, versionRange)` (src/index.js:56-93):
on a thrown subprocess error (timeout, non-zero exit), the
"Error fetching version" sentinel plus a warning; otherwise the answer
is normalized into a list and handled by `getLatestFromList`. -/
def getLatestVersion (packageName : String) (answer : NpmAnswer) (versionRange : String)
    (rsem : String → Option (String → Bool)) : Resolved :=
  match answer with
  | .execFailure msg =>
    ⟨"Error fetching version", ["Error fetching version for " ++ packageName ++ ": " ++ msg]⟩
  | .jsonString v => getLatestFromList packageName [v] versionRange rsem
  | .jsonArray vs => getLatestFromList packageName vs versionRange rsem
  | .nonJson text => getLatestFromList packageName (fallbackVersions text) versionRange rsem

/-- On any non-failure answer, `getLatestVersion` is the list path on
the normalized answer. -/
theorem getLatestVersion_nonFailure (packageName : String) (ans : NpmAnswer)
    (versionRange : String) (rsem : String → Option (String → Bool))
    (h : ∀ msg, ans ≠ NpmAnswer.execFailure msg) :
    getLatestVersion packageName ans versionRange rsem
      = getLatestFromList packageName (normalizeAnswer ans) versionRange rsem := by
  cases ans with
  | execFailure msg => exact absurd rfl (h msg)
  | jsonString v => rfl
  | jsonArray vs => rfl
  | nonJson t => rfl

/-! ## Manifest and lockfile (src/index.js:95-123) -/

/-- The manifest (`package.json`): three optional name → range maps. -/
structure Manifest where
  dependencies : Option (List (String × String))
  devDependencies : Option (List (String × String))
  peerDependencies : Option (List (String × String))

/-- `obj?.[k]`: optional-chained property lookup. -/
def jsLookup (o : Option (List (String × String))) (k : String) : Option String :=
  o.bind (fun l => l.lookup k)

/-- JS truthiness on an optional string: `undefined` and `""` are
falsy. -/
def truthyStr (o : Option String) : Option String :=
  o.bind (fun s => if s = "" then none else some s)

/-- The `||`-chain of `getInstallableVersion`:
`dependencies?.[name] || devDependencies?.[name] || peerDependencies?.[name]`. -/
def manifestRange (pj : Manifest) (packageName : String) : Option String :=
  truthyStr (jsLookup pj.dependencies packageName) <|>
    truthyStr (jsLookup pj.devDependencies packageName) <|>
      truthyStr (jsLookup pj.peerDependencies packageName)

/-- `getInstallableVersion(packageName, packageJson)` (src/index.js:95-105). -/
def getInstallableVersion (packageName : String) (pj : Manifest)
    (registry : String → String → NpmAnswer) (rsem : String → Option (String → Bool)) : Resolved :=
  match manifestRange pj packageName with
  | none =>
    ⟨"Not found in package.json", ["Package " ++ packageName ++ " not found in package.json"]⟩
  | some versionRange =>
    getLatestVersion packageName (registry packageName versionRange) versionRange rsem

/-- One lockfile entry (only its `version` field matters here). -/
structure LockEntry where
  version : String
deriving DecidableEq

/-- The lockfile (`package-lock.json`): the npm 7+ nested `packages`
shape keyed by `node_modules/<name>`, and the npm 6 flat `dependencies`
shape keyed by name. -/
structure Lockfile where
  packages : Option (List (String × LockEntry))
  dependencies : Option (List (String × LockEntry))

/-- `getInstalledVersion(packageName, lockDependencies)`
(src/index.js:107-123): nested shape first, flat shape second, the
"Not installed" sentinel when both miss. -/
def getInstalledVersion (packageName : String) (lockDependencies : Lockfile) : String :=
  match lockDependencies.packages.bind (fun ps => ps.lookup ("node_modules/" ++ packageName)) with
  | some entry => entry.version
  | none =>
    match lockDependencies.dependencies.bind (fun ds => ds.lookup packageName) with
    | some entry => entry.version
    | none => "Not installed"

/-! ## Classification and presentation (src/index.js:125-252) -/

/-- The three comparison flags of src/index.js:185-188. -/
structure Classification where
  hasInstalledChanged : Bool
  hasLatestChanged : Bool
  isMajorChange : Bool
deriving DecidableEq

/-- `hasInstalledChanged = installedVersion !== installableVersion`,
`hasLatestChanged = installedVersion !== latestVersion`,
`isMajorChange = semver.major(installedVersion) !== semver.major(latestVersion)`. -/
def classify (installedVersion installableVersion latestVersion : String) : Classification :=
  ⟨installedVersion != installableVersion,
   installedVersion != latestVersion,
   semverMajor installedVersion != semverMajor latestVersion⟩

/-- Interpolating `semver.diff`'s result into a template string turns a
missing diff into the text `null`. -/
def diffToStr : Option String → String
  | some d => d
  | none => "null"

/-- The three coloured version cells of one table row. -/
structure Cells where
  installed : String
  installable : String
  latest : String
deriving DecidableEq

/-- The colouring block of src/index.js:190-223, producing the three
version cells from the classification precedence: latest-changed first
(red on a major change, yellow otherwise, latest annotated with
`semver.diff(installed, latest)`), then installable-changed (yellow,
installable annotated with the range and
`semver.diff(installed, installable)`), then unchanged (green). -/
def renderCells (versionRange installedVersion installableVersion latestVersion : String) : Cells :=
  let c := classify installedVersion installableVersion latestVersion
  if c.hasLatestChanged then
    let diffAnnotation :=
      chalkItalicGray (" (" ++ diffToStr (semverDiff installedVersion latestVersion) ++ ")")
    let rangeAnnotation := chalkItalicGray (" (" ++ versionRange ++ ")")
    if c.isMajorChange then
      ⟨chalkRed installedVersion,
       chalkYellow installableVersion ++ rangeAnnotation,
       chalkRed latestVersion ++ diffAnnotation⟩
    else
      ⟨chalkYellow installedVersion,
       chalkYellow installableVersion ++ rangeAnnotation,
       chalkYellow latestVersion ++ diffAnnotation⟩
  else if c.hasInstalledChanged then
    let diffAnnotation :=
      chalkItalicGray (" (" ++ diffToStr (semverDiff installedVersion installableVersion) ++ ")")
    ⟨chalkYellow installedVersion,
     chalkYellow installableVersion ++ chalkItalicGray (" (" ++ versionRange ++ ")") ++ diffAnnotation,
     chalkGreen latestVersion⟩
  else
    ⟨chalkGreen installedVersion,
     chalkGreen installableVersion ++ chalkItalicGray (" (" ++ versionRange ++ ")"),
     chalkGreen latestVersion⟩

/-- The ternary chain computing `dependencyType` (src/index.js:150-156). -/
def dependencyTypeOf (pj : Manifest) (packageName : String) : String :=
  if (truthyStr (jsLookup pj.dependencies packageName)).isSome then "dependencies"
  else if (truthyStr (jsLookup pj.devDependencies packageName)).isSome then "devDependencies"
  else if (truthyStr (jsLookup pj.peerDependencies packageName)).isSome then "peerDependencies"
  else "unknown"

/-- One pushed table row. -/
structure Row where
  packageName : String
  dependencyType : String
  installed : String
  installable : String
  latest : String
deriving DecidableEq

/-- The outcome of one loop iteration: an optional pushed row plus the
warnings printed during the iteration. -/
structure StepResult where
  row : Option Row
  warnings : List String
deriving DecidableEq

/-- One iteration of the `for` loop of `compareVersions`
(src/index.js:147-237): resolve the three versions, skip (with a
warning) when any is "Unable to determine" or fails `semver.valid`,
classify, colour, and push the row when
`all || hasLatestChanged || hasInstalledChanged`. -/
def processDependency (pj : Manifest) (lock : Lockfile) (registry : String → String → NpmAnswer)
    (rsem : String → Option (String → Bool)) (all : Bool)
    (packageName versionRange : String) : StepResult :=
  let dependencyType := dependencyTypeOf pj packageName
  let installedVersion := getInstalledVersion packageName lock
  let ri := getInstallableVersion packageName pj registry rsem
  let rl := getLatestVersion packageName (registry packageName "latest") "latest" rsem
  let installableVersion := ri.value
  let latestVersion := rl.value
  let ws := ri.warnings ++ rl.warnings
  if installedVersion = "Unable to determine" ∨ installableVersion = "Unable to determine" ∨
      latestVersion = "Unable to determine" then
    ⟨none, ws ++ ["Unable to determine all versions for " ++ packageName ++ ". Skipping."]⟩
  else if (semverValid installedVersion).isNone ∨ (semverValid installableVersion).isNone ∨
      (semverValid latestVersion).isNone then
    ⟨none, ws ++ ["Invalid version detected for " ++ packageName ++ ". Skipping."]⟩
  else
    let c := classify installedVersion installableVersion latestVersion
    let cells := renderCells versionRange installedVersion installableVersion latestVersion
    if all || c.hasLatestChanged || c.hasInstalledChanged then
      ⟨some ⟨packageName, chalkCyan dependencyType, cells.installed, cells.installable, cells.latest⟩,
       ws⟩
    else
      ⟨none, ws⟩

/-- Order-preserving deduplication keeping first occurrences, mirroring
how duplicate keys behave under object spread. -/
def dedupFirstAux (seen : List String) : List String → List String
  | [] => []
  | k :: ks =>
    if seen.contains k then dedupFirstAux seen ks
    else k :: dedupFirstAux (k :: seen) ks

/-- `{...packageJson.dependencies, ...packageJson.devDependencies,
...packageJson.peerDependencies}` (src/index.js:126-130): keys keep
their first-insertion position, values are taken from the LAST spread
object containing the key. -/
def mergedDependencies (pj : Manifest) : List (String × String) :=
  let ka := (pj.dependencies.getD []).map Prod.fst
  let kb := (pj.devDependencies.getD []).map Prod.fst
  let kc := (pj.peerDependencies.getD []).map Prod.fst
  (dedupFirstAux [] (ka ++ kb ++ kc)).map (fun k =>
    (k,
      (jsLookup pj.peerDependencies k <|> jsLookup pj.devDependencies k <|>
        jsLookup pj.dependencies k).getD ""))

/-- All per-dependency step results, in iteration order. -/
def stepResults (pj : Manifest) (lock : Lockfile) (registry : String → String → NpmAnswer)
    (rsem : String → Option (String → Bool)) (all : Bool) : List StepResult :=
  (mergedDependencies pj).map (fun nv => processDependency pj lock registry rsem all nv.1 nv.2)

/-- The rows pushed into the table. -/
def tableRows (pj : Manifest) (lock : Lockfile) (registry : String → String → NpmAnswer)
    (rsem : String → Option (String → Bool)) (all : Bool) : List Row :=
  (stepResults pj lock registry rsem all).filterMap StepResult.row

/-- A rendered table line: a regular entry or the full-width (colSpan 5)
synthetic line. -/
inductive TableRow where
  | entry (r : Row)
  | fullWidth (content : String)
deriving DecidableEq

/-- The synthetic "no differences" content (src/index.js:240-248). -/
def noDiffMessage : String :=
  chalkGreen "No installable packages found. `npm ci` and `npm i` are the same."

/-- The final table of `compareVersions` (src/index.js:239-249): the
pushed rows, or the single synthetic full-width row when none were
pushed. -/
def finalTable (pj : Manifest) (lock : Lockfile) (registry : String → String → NpmAnswer)
    (rsem : String → Option (String → Bool)) (all : Bool) : List TableRow :=
  let rows := tableRows pj lock registry rsem all
  if rows.isEmpty then [.fullWidth noDiffMessage] else rows.map TableRow.entry

/-! ## Order theory for semver precedence

`maxSatisfying` is claimed to return the maximum satisfying version, so
we need the comparison to behave like a linear preorder: symmetry under
swap, transitivity of `lt`, and left-congruence of `eq`. -/

theorem then_eq_lt (o p : Ordering) : o.then p = .lt ↔ o = .lt ∨ (o = .eq ∧ p = .lt) := by
  cases o <;> cases p <;> decide

theorem then_eq_eq (o p : Ordering) : o.then p = .eq ↔ o = .eq ∧ p = .eq := by
  cases o <;> cases p <;> decide

theorem then_swap (o p : Ordering) : (o.swap).then (p.swap) = (o.then p).swap := by
  cases o <;> cases p <;> decide

theorem swap_eq_lt (o : Ordering) : o.swap = .lt ↔ o = .gt := by cases o <;> decide

theorem swap_eq_gt (o : Ordering) : o.swap = .gt ↔ o = .lt := by cases o <;> decide

theorem swap_eq_eq (o : Ordering) : o.swap = .eq ↔ o = .eq := by cases o <;> decide

theorem cmpNat_lt_iff (a b : Nat) : cmpNat a b = .lt ↔ a < b := by
  unfold cmpNat
  by_cases h1 : a < b
  · simp [h1]
  · by_cases h2 : a = b <;> simp [h1, h2]

theorem cmpNat_eq_iff (a b : Nat) : cmpNat a b = .eq ↔ a = b := by
  unfold cmpNat
  by_cases h1 : a < b
  · simp [h1]; omega
  · by_cases h2 : a = b <;> simp [h1, h2]

theorem cmpNat_symm (a b : Nat) : cmpNat a b = (cmpNat b a).swap := by
  unfold cmpNat
  rcases Nat.lt_trichotomy a b with h | h | h
  · rw [if_pos h, if_neg (by omega : ¬ b < a), if_neg (by omega : ¬ b = a)]; rfl
  · rw [if_neg (by omega : ¬ a < b), if_pos h, if_neg (by omega : ¬ b < a), if_pos h.symm]; rfl
  · rw [if_neg (by omega : ¬ a < b), if_neg (by omega : ¬ a = b), if_pos h]; rfl

theorem cmpNat_ltTrans (a b c : Nat) (h1 : cmpNat a b = .lt) (h2 : cmpNat b c = .lt) :
    cmpNat a c = .lt := by
  rw [cmpNat_lt_iff] at h1 h2 ⊢; omega

theorem cmpNat_eqCongrL (a b : Nat) (h : cmpNat a b = .eq) (c : Nat) :
    cmpNat a c = cmpNat b c := by
  rw [cmpNat_eq_iff] at h; rw [h]

/-- Left-congruence and transitivity compose through `Ordering.then`. -/
theorem thenc_eqCongrL {α : Type} (f g : α → α → Ordering)
    (hfe : ∀ a b, f a b = .eq → ∀ c, f a c = f b c)
    (hge : ∀ a b, g a b = .eq → ∀ c, g a c = g b c) :
    ∀ a b, (f a b).then (g a b) = .eq → ∀ c, (f a c).then (g a c) = (f b c).then (g b c) := by
  intro a b h c
  rw [then_eq_eq] at h
  rw [hfe a b h.1 c, hge a b h.2 c]

theorem thenc_ltTrans {α : Type} (f g : α → α → Ordering)
    (hfs : ∀ a b, f a b = (f b a).swap)
    (hft : ∀ a b c, f a b = .lt → f b c = .lt → f a c = .lt)
    (hfe : ∀ a b, f a b = .eq → ∀ c, f a c = f b c)
    (hgt : ∀ a b c, g a b = .lt → g b c = .lt → g a c = .lt) :
    ∀ a b c, (f a b).then (g a b) = .lt → (f b c).then (g b c) = .lt →
      (f a c).then (g a c) = .lt := by
  intro a b c h1 h2
  rw [then_eq_lt] at h1 h2 ⊢
  rcases h1 with h1 | h1 <;> rcases h2 with h2 | h2
  · exact Or.inl (hft a b c h1 h2)
  · -- f a b = lt, f b c = eq
    left
    have hba : f b a = f c a := hfe b c h2.1 a
    have hgt : f b a = .gt := by rw [hfs b a, swap_eq_gt]; exact h1
    have hca : f c a = .gt := by rw [← hba]; exact hgt
    rw [hfs a c, swap_eq_lt]; exact hca
  · -- f a b = eq, f b c = lt
    exact Or.inl (by rw [hfe a b h1.1 c]; exact h2)
  · -- both eq on f
    right
    refine ⟨by rw [hfe a b h1.1 c]; exact h2.1, hgt a b c h1.2 h2.2⟩

theorem cmpCharList_symm : ∀ x y, cmpCharList x y = (cmpCharList y x).swap := by
  intro x
  induction x with
  | nil => intro y; cases y <;> simp [cmpCharList, Ordering.swap]
  | cons a as ih =>
    intro y
    cases y with
    | nil => simp [cmpCharList, Ordering.swap]
    | cons b bs =>
      show (cmpNat a.toNat b.toNat).then (cmpCharList as bs)
        = ((cmpNat b.toNat a.toNat).then (cmpCharList bs as)).swap
      rw [cmpNat_symm, ih bs, then_swap]

theorem char_toNat_injective {c d : Char} (h : c.toNat = d.toNat) : c = d :=
  Char.ext_iff.mpr (UInt32.ext_iff.mpr h)

theorem cmpCharList_eq_iff : ∀ x y, cmpCharList x y = .eq ↔ x = y := by
  intro x
  induction x with
  | nil => intro y; cases y <;> simp [cmpCharList]
  | cons a as ih =>
    intro y
    cases y with
    | nil => simp [cmpCharList]
    | cons b bs =>
      show (cmpNat a.toNat b.toNat).then (cmpCharList as bs) = .eq ↔ _
      rw [then_eq_eq, cmpNat_eq_iff, ih bs]
      constructor
      · rintro ⟨h1, h2⟩; exact by rw [char_toNat_injective h1, h2]
      · rintro h; injection h with h1 h2; exact ⟨by rw [h1], h2⟩

theorem cmpCharList_ltTrans : ∀ x y z, cmpCharList x y = .lt → cmpCharList y z = .lt →
    cmpCharList x z = .lt := by
  intro x
  induction x with
  | nil =>
    intro y z h1 h2
    cases y with
    | nil => simp [cmpCharList] at h1
    | cons b bs =>
      cases z with
      | nil => simp [cmpCharList] at h2
      | cons c cs => simp [cmpCharList]
  | cons a as ih =>
    intro y z h1 h2
    cases y with
    | nil => simp [cmpCharList] at h1
    | cons b bs =>
      cases z with
      | nil => simp [cmpCharList] at h2
      | cons c cs =>
        rw [show cmpCharList (a :: as) (b :: bs)
            = (cmpNat a.toNat b.toNat).then (cmpCharList as bs) from rfl, then_eq_lt] at h1
        rw [show cmpCharList (b :: bs) (c :: cs)
            = (cmpNat b.toNat c.toNat).then (cmpCharList bs cs) from rfl, then_eq_lt] at h2
        rw [show cmpCharList (a :: as) (c :: cs)
            = (cmpNat a.toNat c.toNat).then (cmpCharList as cs) from rfl, then_eq_lt]
        rcases h1 with h1 | h1 <;> rcases h2 with h2 | h2
        · exact Or.inl (cmpNat_ltTrans _ _ _ h1 h2)
        · exact Or.inl (by rw [cmpNat_eq_iff] at h2; rw [← h2.1]; exact h1)
        · exact Or.inl (by rw [cmpNat_eq_iff] at h1; rw [h1.1]; exact h2)
        · right
          rw [cmpNat_eq_iff] at h1 h2 ⊢
          exact ⟨h1.1.trans h2.1, ih bs cs h1.2 h2.2⟩

theorem cmpId_symm (a b : PreId) : cmpId a b = (cmpId b a).swap := by
  unfold cmpId
  cases idNumVal a <;> cases idNumVal b
  · exact cmpCharList_symm _ _
  · rfl
  · rfl
  · exact cmpNat_symm _ _

theorem cmpId_ltTrans (a b c : PreId) (h1 : cmpId a b = .lt) (h2 : cmpId b c = .lt) :
    cmpId a c = .lt := by
  unfold cmpId at h1 h2 ⊢
  cases ha : idNumVal a <;> cases hb : idNumVal b <;> cases hc : idNumVal c <;>
      rw [ha, hb] at h1 <;> rw [hb, hc] at h2
  all_goals try exact cmpCharList_ltTrans _ _ _ h1 h2
  all_goals try exact cmpNat_ltTrans _ _ _ h1 h2
  all_goals simp at h1 h2

theorem cmpId_eqCongrL (a b : PreId) (h : cmpId a b = .eq) : ∀ c, cmpId a c = cmpId b c := by
  intro c
  unfold cmpId at h ⊢
  cases ha : idNumVal a with
  | none =>
    cases hb : idNumVal b with
    | none =>
      rw [ha, hb] at h
      have h' : cmpCharList (idText a) (idText b) = .eq := h
      rw [cmpCharList_eq_iff] at h'
      rw [h']
    | some n => rw [ha, hb] at h; exact absurd h (by simp)
  | some m =>
    cases hb : idNumVal b with
    | none => rw [ha, hb] at h; exact absurd h (by simp)
    | some n =>
      rw [ha, hb] at h
      have h' : cmpNat m n = .eq := h
      rw [cmpNat_eq_iff] at h'
      subst h'
      cases hc : idNumVal c
      · rfl
      · rfl

theorem cmpIds_symm : ∀ x y, cmpIds x y = (cmpIds y x).swap := by
  intro x
  induction x with
  | nil => intro y; cases y <;> simp [cmpIds, Ordering.swap]
  | cons a as ih =>
    intro y
    cases y with
    | nil => simp [cmpIds, Ordering.swap]
    | cons b bs =>
      show (cmpId a b).then (cmpIds as bs) = ((cmpId b a).then (cmpIds bs as)).swap
      rw [cmpId_symm, ih bs, then_swap]

theorem cmpIds_ltTrans : ∀ x y z, cmpIds x y = .lt → cmpIds y z = .lt → cmpIds x z = .lt := by
  intro x
  induction x with
  | nil =>
    intro y z h1 h2
    cases y with
    | nil => simp [cmpIds] at h1
    | cons b bs =>
      cases z with
      | nil => simp [cmpIds] at h2
      | cons c cs => simp [cmpIds]
  | cons a as ih =>
    intro y z h1 h2
    cases y with
    | nil => simp [cmpIds] at h1
    | cons b bs =>
      cases z with
      | nil => simp [cmpIds] at h2
      | cons c cs =>
        rw [show cmpIds (a :: as) (b :: bs) = (cmpId a b).then (cmpIds as bs) from rfl,
          then_eq_lt] at h1
        rw [show cmpIds (b :: bs) (c :: cs) = (cmpId b c).then (cmpIds bs cs) from rfl,
          then_eq_lt] at h2
        rw [show cmpIds (a :: as) (c :: cs) = (cmpId a c).then (cmpIds as cs) from rfl,
          then_eq_lt]
        rcases h1 with h1 | h1 <;> rcases h2 with h2 | h2
        · exact Or.inl (cmpId_ltTrans _ _ _ h1 h2)
        · -- cmpId a b = lt, cmpId b c = eq
          left
          have := cmpId_eqCongrL b c h2.1 a
          have hba : cmpId b a = .gt := by
            rw [cmpId_symm b a, swap_eq_gt]
            exact h1
          have hca : cmpId c a = .gt := by rw [← this]; exact hba
          rw [cmpId_symm a c, swap_eq_lt]
          exact hca
        · exact Or.inl (by rw [cmpId_eqCongrL a b h1.1 c]; exact h2)
        · right
          exact ⟨by rw [cmpId_eqCongrL a b h1.1 c]; exact h2.1, ih bs cs h1.2 h2.2⟩

theorem cmpIds_eqCongrL : ∀ x y, cmpIds x y = .eq → ∀ z, cmpIds x z = cmpIds y z := by
  intro x
  induction x with
  | nil =>
    intro y h z
    cases y with
    | nil => rfl
    | cons b bs => simp [cmpIds] at h
  | cons a as ih =>
    intro y h z
    cases y with
    | nil => simp [cmpIds] at h
    | cons b bs =>
      rw [show cmpIds (a :: as) (b :: bs) = (cmpId a b).then (cmpIds as bs) from rfl,
        then_eq_eq] at h
      cases z with
      | nil => rfl
      | cons c cs =>
        show (cmpId a c).then (cmpIds as cs) = (cmpId b c).then (cmpIds bs cs)
        rw [cmpId_eqCongrL a b h.1 c, ih bs h.2 cs]

theorem cmpPre_symm (x y : List PreId) : cmpPre x y = (cmpPre y x).swap := by
  unfold cmpPre
  cases x <;> cases y
  · rfl
  · rfl
  · rfl
  · exact cmpIds_symm _ _

theorem cmpPre_ltTrans (x y z : List PreId) (h1 : cmpPre x y = .lt) (h2 : cmpPre y z = .lt) :
    cmpPre x z = .lt := by
  unfold cmpPre at h1 h2 ⊢
  cases x with
  | nil =>
    cases y with
    | nil => exact absurd h1 (by simp)
    | cons b bs => exact absurd h1 (by simp)
  | cons a as =>
    cases y with
    | nil =>
      cases z with
      | nil => exact h1
      | cons c cs => exact absurd h2 (by simp)
    | cons b bs =>
      cases z with
      | nil => rfl
      | cons c cs => exact cmpIds_ltTrans _ _ _ h1 h2

theorem cmpPre_eqCongrL (x y : List PreId) (h : cmpPre x y = .eq) :
    ∀ z, cmpPre x z = cmpPre y z := by
  intro z
  unfold cmpPre at h ⊢
  cases x with
  | nil =>
    cases y with
    | nil => rfl
    | cons b bs => exact absurd h (by simp)
  | cons a as =>
    cases y with
    | nil => exact absurd h (by simp)
    | cons b bs =>
      cases z with
      | nil => rfl
      | cons c cs => exact cmpIds_eqCongrL _ _ h _

theorem semverCmp_symm (x y : SemVer) : semverCmp x y = (semverCmp y x).swap := by
  unfold semverCmp
  rw [cmpNat_symm x.major, cmpNat_symm x.minor, cmpNat_symm x.patch,
    cmpPre_symm x.prerelease, then_swap, then_swap, then_swap]

theorem semverCmp_ltTrans (x y z : SemVer) (h1 : semverCmp x y = .lt)
    (h2 : semverCmp y z = .lt) : semverCmp x z = .lt := by
  unfold semverCmp at h1 h2 ⊢
  exact thenc_ltTrans (fun (a b : SemVer) => cmpNat a.major b.major)
    (fun (a b : SemVer) => (cmpNat a.minor b.minor).then
      ((cmpNat a.patch b.patch).then (cmpPre a.prerelease b.prerelease)))
    (fun (a b : SemVer) => cmpNat_symm a.major b.major)
    (fun (a b c : SemVer) hab hbc => cmpNat_ltTrans a.major b.major c.major hab hbc)
    (fun (a b : SemVer) hab (c : SemVer) => cmpNat_eqCongrL a.major b.major hab c.major)
    (thenc_ltTrans (fun (a b : SemVer) => cmpNat a.minor b.minor)
      (fun (a b : SemVer) => (cmpNat a.patch b.patch).then (cmpPre a.prerelease b.prerelease))
      (fun (a b : SemVer) => cmpNat_symm a.minor b.minor)
      (fun (a b c : SemVer) hab hbc => cmpNat_ltTrans a.minor b.minor c.minor hab hbc)
      (fun (a b : SemVer) hab (c : SemVer) => cmpNat_eqCongrL a.minor b.minor hab c.minor)
      (thenc_ltTrans (fun (a b : SemVer) => cmpNat a.patch b.patch)
        (fun (a b : SemVer) => cmpPre a.prerelease b.prerelease)
        (fun (a b : SemVer) => cmpNat_symm a.patch b.patch)
        (fun (a b c : SemVer) hab hbc => cmpNat_ltTrans a.patch b.patch c.patch hab hbc)
        (fun (a b : SemVer) hab (c : SemVer) => cmpNat_eqCongrL a.patch b.patch hab c.patch)
        (fun (a b c : SemVer) hab hbc => cmpPre_ltTrans a.prerelease b.prerelease c.prerelease hab hbc)))
    x y z h1 h2

theorem semverCmp_eqCongrL (x y : SemVer) (h : semverCmp x y = .eq) :
    ∀ z, semverCmp x z = semverCmp y z := by
  intro z
  unfold semverCmp at h ⊢
  exact thenc_eqCongrL (fun (a b : SemVer) => cmpNat a.major b.major)
    (fun (a b : SemVer) => (cmpNat a.minor b.minor).then
      ((cmpNat a.patch b.patch).then (cmpPre a.prerelease b.prerelease)))
    (fun (a b : SemVer) hab (c : SemVer) => cmpNat_eqCongrL a.major b.major hab c.major)
    (thenc_eqCongrL (fun (a b : SemVer) => cmpNat a.minor b.minor)
      (fun (a b : SemVer) => (cmpNat a.patch b.patch).then (cmpPre a.prerelease b.prerelease))
      (fun (a b : SemVer) hab (c : SemVer) => cmpNat_eqCongrL a.minor b.minor hab c.minor)
      (thenc_eqCongrL (fun (a b : SemVer) => cmpNat a.patch b.patch)
        (fun (a b : SemVer) => cmpPre a.prerelease b.prerelease)
        (fun (a b : SemVer) hab (c : SemVer) => cmpNat_eqCongrL a.patch b.patch hab c.patch)
        (fun (a b : SemVer) hab (c : SemVer) => cmpPre_eqCongrL a.prerelease b.prerelease hab c.prerelease)))
    x y h z

/-- `semverCmp x x = eq` (the only fixed point of `swap`). -/
theorem semverCmp_refl (x : SemVer) : semverCmp x x = .eq := by
  have h := semverCmp_symm x x
  cases hx : semverCmp x x with
  | lt => rw [hx] at h; exact absurd h (by decide)
  | eq => rfl
  | gt => rw [hx] at h; exact absurd h (by decide)

/-- `gt`/`eq` chains compose: "not below" is transitive. -/
theorem semverCmp_geTrans (x y z : SemVer) (h1 : semverCmp x y ≠ .lt)
    (h2 : semverCmp y z ≠ .lt) : semverCmp x z ≠ .lt := by
  cases hxy : semverCmp x y with
  | lt => exact absurd hxy h1
  | eq => rw [semverCmp_eqCongrL x y hxy z]; exact h2
  | gt =>
    cases hyz : semverCmp y z with
    | lt => exact absurd hyz h2
    | eq =>
      have := semverCmp_eqCongrL y z hyz x
      intro hxz
      have hzx : semverCmp z x = .gt := by rw [semverCmp_symm, swap_eq_gt]; exact hxz
      have hyx : semverCmp y x = .gt := by rw [this]; exact hzx
      have : semverCmp x y = .lt := by rw [semverCmp_symm, swap_eq_lt]; exact hyx
      rw [this] at hxy; exact absurd hxy (by simp)
    | gt =>
      have hzy : semverCmp z y = .lt := by rw [semverCmp_symm, swap_eq_lt]; exact hyz
      have hyx : semverCmp y x = .lt := by rw [semverCmp_symm, swap_eq_lt]; exact hxy
      have hzx := semverCmp_ltTrans z y x hzy hyx
      intro hxz
      have : semverCmp z x = .gt := by rw [semverCmp_symm, swap_eq_gt]; exact hxz
      rw [this] at hzx; exact absurd hzx (by simp)

theorem semverCmpStr_irrefl (a : String) : semverCmpStr a a ≠ .lt := by
  unfold semverCmpStr
  cases ha : semverParse a with
  | none => simp
  | some x =>
    intro hlt
    have h2 : semverCmp x x = .lt := hlt
    rw [semverCmp_refl x] at h2
    exact absurd h2 (by decide)

theorem semverCmpStr_ltTrans (a b c : String) (h1 : semverCmpStr a b = .lt)
    (h2 : semverCmpStr b c = .lt) : semverCmpStr a c = .lt := by
  unfold semverCmpStr at h1 h2 ⊢
  cases ha : semverParse a with
  | none => rw [ha] at h1; simp at h1
  | some x =>
    cases hb : semverParse b with
    | none => rw [ha, hb] at h1; simp at h1
    | some y =>
      cases hc : semverParse c with
      | none => rw [hb, hc] at h2; simp at h2
      | some z =>
        rw [ha, hb] at h1
        rw [hb, hc] at h2
        exact semverCmp_ltTrans x y z h1 h2

theorem semverCmpStr_geTrans (a b c : String) (hb : (semverParse b).isSome = true)
    (h1 : semverCmpStr a b ≠ .lt) (h2 : semverCmpStr b c ≠ .lt) :
    semverCmpStr a c ≠ .lt := by
  unfold semverCmpStr at h1 h2 ⊢
  cases ha : semverParse a with
  | none => simp
  | some x =>
    cases hc : semverParse c with
    | none => simp
    | some z =>
      rcases Option.isSome_iff_exists.mp hb with ⟨y, hy⟩
      rw [ha, hy] at h1
      rw [hy, hc] at h2
      exact semverCmp_geTrans x y z h1 h2

/-- Once the accumulator of `maxSatisfying`'s loop is set it never
resets. -/
theorem maxSatAux_isSome (test : String → Bool) :
    ∀ (vs : List String) (m : String), maxSatAux test (some m) vs ≠ none := by
  intro vs
  induction vs with
  | nil => intro m h; exact absurd h (by simp [maxSatAux])
  | cons v vs ih =>
    intro m
    have e : maxSatAux test (some m) (v :: vs)
        = if test v then
            (if semverCmpStr m v = .lt then maxSatAux test (some v) vs
             else maxSatAux test (some m) vs)
          else maxSatAux test (some m) vs := rfl
    rw [e]
    by_cases hv : test v
    · by_cases hcmp : semverCmpStr m v = .lt
      · rw [if_pos hv, if_pos hcmp]; exact ih v
      · rw [if_pos hv, if_neg hcmp]; exact ih m
    · rw [if_neg hv]; exact ih m

/-- The loop yields `none` exactly when no candidate passes the range
test. -/
theorem maxSatAux_none_iff (test : String → Bool) :
    ∀ vs : List String, maxSatAux test none vs = none ↔ ∀ v ∈ vs, test v = false := by
  intro vs
  induction vs with
  | nil => simp [maxSatAux]
  | cons v vs ih =>
    have e : maxSatAux test none (v :: vs)
        = if test v then maxSatAux test (some v) vs else maxSatAux test none vs := rfl
    rw [e]
    by_cases hv : test v
    · rw [if_pos hv]
      simp only [List.mem_cons]
      constructor
      · intro h; exact absurd h (maxSatAux_isSome test vs v)
      · intro h; exact absurd hv (by simp [h v (Or.inl rfl)])
    · rw [if_neg hv]
      simp only [List.mem_cons, ih]
      constructor
      · intro h u hu
        rcases hu with hu | hu
        · rw [hu]; simpa using hv
        · exact h u hu
      · intro h u hu; exact h u (Or.inr hu)

/-- Whatever the loop returns is either the starting accumulator or a
list element passing the test. -/
theorem maxSatAux_mem (test : String → Bool) :
    ∀ (vs : List String) (acc : Option String) (m : String),
      maxSatAux test acc vs = some m → acc = some m ∨ (m ∈ vs ∧ test m = true) := by
  intro vs
  induction vs with
  | nil => intro acc m h; cases acc <;> exact Or.inl h
  | cons v vs ih =>
    intro acc m h
    cases acc with
    | none =>
      have e : maxSatAux test none (v :: vs)
          = if test v then maxSatAux test (some v) vs else maxSatAux test none vs := rfl
      rw [e] at h
      by_cases hv : test v
      · rw [if_pos hv] at h
        rcases ih (some v) m h with h' | h'
        · injection h' with h''
          exact Or.inr ⟨h'' ▸ List.mem_cons_self v vs, h'' ▸ hv⟩
        · exact Or.inr ⟨List.mem_cons_of_mem _ h'.1, h'.2⟩
      · rw [if_neg hv] at h
        rcases ih none m h with h' | h'
        · exact absurd h' (by simp)
        · exact Or.inr ⟨List.mem_cons_of_mem _ h'.1, h'.2⟩
    | some m0 =>
      have e : maxSatAux test (some m0) (v :: vs)
          = if test v then
              (if semverCmpStr m0 v = .lt then maxSatAux test (some v) vs
               else maxSatAux test (some m0) vs)
            else maxSatAux test (some m0) vs := rfl
      rw [e] at h
      by_cases hv : test v
      · by_cases hcmp : semverCmpStr m0 v = .lt
        · rw [if_pos hv, if_pos hcmp] at h
          rcases ih (some v) m h with h' | h'
          · injection h' with h''
            exact Or.inr ⟨h'' ▸ List.mem_cons_self v vs, h'' ▸ hv⟩
          · exact Or.inr ⟨List.mem_cons_of_mem _ h'.1, h'.2⟩
        · rw [if_pos hv, if_neg hcmp] at h
          rcases ih (some m0) m h with h' | h'
          · exact Or.inl h'
          · exact Or.inr ⟨List.mem_cons_of_mem _ h'.1, h'.2⟩
      · rw [if_neg hv] at h
        rcases ih (some m0) m h with h' | h'
        · exact Or.inl h'
        · exact Or.inr ⟨List.mem_cons_of_mem _ h'.1, h'.2⟩

/-- Maximality of the loop result: it never compares strictly below the
starting accumulator or any candidate passing the test (all versions
involved being parseable). -/
theorem maxSatAux_max (test : String → Bool) :
    ∀ (vs : List String) (acc : Option String) (m : String),
      (∀ v ∈ vs, (semverParse v).isSome = true) →
      (∀ m0, acc = some m0 → (semverParse m0).isSome = true) →
      maxSatAux test acc vs = some m →
      (∀ m0, acc = some m0 → semverCmpStr m m0 ≠ .lt) ∧
        (∀ v ∈ vs, test v = true → semverCmpStr m v ≠ .lt) := by
  intro vs
  induction vs with
  | nil =>
    intro acc m hvs hacc h
    refine ⟨?_, by simp⟩
    intro m0 hm0
    cases acc with
    | none => exact absurd hm0 (by simp)
    | some m1 =>
      have hh : some m1 = some m := h
      injection hh with hh'
      injection hm0 with hm0'
      rw [← hh', ← hm0']
      exact semverCmpStr_irrefl m1
  | cons v vs ih =>
    intro acc m hvs hacc h
    have hvv : (semverParse v).isSome = true := hvs v (List.mem_cons_self v vs)
    have hvs' : ∀ u ∈ vs, (semverParse u).isSome = true :=
      fun u hu => hvs u (List.mem_cons_of_mem _ hu)
    cases acc with
    | none =>
      have e : maxSatAux test none (v :: vs)
          = if test v then maxSatAux test (some v) vs else maxSatAux test none vs := rfl
      rw [e] at h
      by_cases hv : test v
      · rw [if_pos hv] at h
        have hip := ih (some v) m hvs'
          (fun m0 e0 => by injection e0 with e0'; rw [← e0']; exact hvv) h
        refine ⟨fun m0 hm0 => absurd hm0 (by simp), ?_⟩
        intro u hu hut
        rcases List.mem_cons.mp hu with hu' | hu'
        · rw [hu']; exact hip.1 v rfl
        · exact hip.2 u hu' hut
      · rw [if_neg hv] at h
        have hip := ih none m hvs' (fun m0 e0 => by exact absurd e0 (by simp)) h
        refine ⟨fun m0 hm0 => absurd hm0 (by simp), ?_⟩
        intro u hu hut
        rcases List.mem_cons.mp hu with hu' | hu'
        · rw [hu'] at hut; rw [hut] at hv; exact absurd rfl hv
        · exact hip.2 u hu' hut
    | some m0 =>
      have hm0v : (semverParse m0).isSome = true := hacc m0 rfl
      have e : maxSatAux test (some m0) (v :: vs)
          = if test v then
              (if semverCmpStr m0 v = .lt then maxSatAux test (some v) vs
               else maxSatAux test (some m0) vs)
            else maxSatAux test (some m0) vs := rfl
      rw [e] at h
      by_cases hv : test v
      · by_cases hcmp : semverCmpStr m0 v = .lt
        · rw [if_pos hv, if_pos hcmp] at h
          have hip := ih (some v) m hvs'
            (fun u e0 => by injection e0 with e0'; rw [← e0']; exact hvv) h
          have hmv : semverCmpStr m v ≠ .lt := hip.1 v rfl
          refine ⟨?_, ?_⟩
          · intro u hu
            injection hu with hu'
            rw [← hu']
            intro hlt
            exact hmv (semverCmpStr_ltTrans m m0 v hlt hcmp)
          · intro u hu hut
            rcases List.mem_cons.mp hu with hu' | hu'
            · rw [hu']; exact hmv
            · exact hip.2 u hu' hut
        · rw [if_pos hv, if_neg hcmp] at h
          have hip := ih (some m0) m hvs'
            (fun u e0 => by injection e0 with e0'; rw [← e0']; exact hm0v) h
          have hmm0 : semverCmpStr m m0 ≠ .lt := hip.1 m0 rfl
          refine ⟨?_, ?_⟩
          · intro u hu
            injection hu with hu'
            rw [← hu']
            exact hmm0
          · intro u hu hut
            rcases List.mem_cons.mp hu with hu' | hu'
            · rw [hu']
              exact semverCmpStr_geTrans m m0 v hm0v hmm0 hcmp
            · exact hip.2 u hu' hut
      · rw [if_neg hv] at h
        have hip := ih (some m0) m hvs'
          (fun u e0 => by injection e0 with e0'; rw [← e0']; exact hm0v) h
        refine ⟨?_, ?_⟩
        · intro u hu
          injection hu with hu'
          rw [← hu']
          exact hip.1 m0 rfl
        · intro u hu hut
          rcases List.mem_cons.mp hu with hu' | hu'
          · rw [hu'] at hut; rw [hut] at hv; exact absurd rfl hv
          · exact hip.2 u hu' hut

/-! ## Unfolding and specification lemmas for the pipeline -/

theorem semverValid_isSome_iff_parse (s : String) :
    (semverValid s).isSome = (semverParse s).isSome := by
  unfold semverValid
  cases semverParse s <;> rfl

theorem getLatestFromList_def (packageName : String) (versions : List String)
    (versionRange : String) (rsem : String → Option (String → Bool)) :
    getLatestFromList packageName versions versionRange rsem
      = if (versions.filter (fun v => (semverValid v).isSome)).isEmpty then
          ⟨"Unable to determine", ["No valid versions found for " ++ packageName]⟩
        else
          ⟨(maxSatisfying (versions.filter (fun v => (semverValid v).isSome)) versionRange
              rsem).getD
            ((versions.filter (fun v => (semverValid v).isSome)).getLastD ""), []⟩ := rfl

theorem processDependency_def (pj : Manifest) (lock : Lockfile)
    (registry : String → String → NpmAnswer) (rsem : String → Option (String → Bool))
    (all : Bool) (packageName versionRange : String) :
    processDependency pj lock registry rsem all packageName versionRange
      = if getInstalledVersion packageName lock = "Unable to determine" ∨
            (getInstallableVersion packageName pj registry rsem).value = "Unable to determine" ∨
            (getLatestVersion packageName (registry packageName "latest") "latest" rsem).value
              = "Unable to determine" then
          ⟨none,
            (getInstallableVersion packageName pj registry rsem).warnings ++
                (getLatestVersion packageName (registry packageName "latest") "latest"
                  rsem).warnings ++
              ["Unable to determine all versions for " ++ packageName ++ ". Skipping."]⟩
        else if (semverValid (getInstalledVersion packageName lock)).isNone ∨
            (semverValid
              (getInstallableVersion packageName pj registry rsem).value).isNone ∨
            (semverValid
              (getLatestVersion packageName (registry packageName "latest") "latest"
                rsem).value).isNone then
          ⟨none,
            (getInstallableVersion packageName pj registry rsem).warnings ++
                (getLatestVersion packageName (registry packageName "latest") "latest"
                  rsem).warnings ++
              ["Invalid version detected for " ++ packageName ++ ". Skipping."]⟩
        else if all ||
            (classify (getInstalledVersion packageName lock)
              (getInstallableVersion packageName pj registry rsem).value
              (getLatestVersion packageName (registry packageName "latest") "latest"
                rsem).value).hasLatestChanged ||
            (classify (getInstalledVersion packageName lock)
              (getInstallableVersion packageName pj registry rsem).value
              (getLatestVersion packageName (registry packageName "latest") "latest"
                rsem).value).hasInstalledChanged then
          ⟨some ⟨packageName, chalkCyan (dependencyTypeOf pj packageName),
            (renderCells versionRange (getInstalledVersion packageName lock)
              (getInstallableVersion packageName pj registry rsem).value
              (getLatestVersion packageName (registry packageName "latest") "latest"
                rsem).value).installed,
            (renderCells versionRange (getInstalledVersion packageName lock)
              (getInstallableVersion packageName pj registry rsem).value
              (getLatestVersion packageName (registry packageName "latest") "latest"
                rsem).value).installable,
            (renderCells versionRange (getInstalledVersion packageName lock)
              (getInstallableVersion packageName pj registry rsem).value
              (getLatestVersion packageName (registry packageName "latest") "latest"
                rsem).value).latest⟩,
            (getInstallableVersion packageName pj registry rsem).warnings ++
              (getLatestVersion packageName (registry packageName "latest") "latest"
                rsem).warnings⟩
        else
          ⟨none,
            (getInstallableVersion packageName pj registry rsem).warnings ++
              (getLatestVersion packageName (registry packageName "latest") "latest"
                rsem).warnings⟩ := rfl

/-- What a `some` result of `maxSatisfying` means: a member of the list
passing the range test that compares at least as high as every passing
member. -/
theorem maxSatisfying_some_spec (versions : List String) (range : String)
    (rsem : String → Option (String → Bool)) (test : String → Bool)
    (hr : rsem range = some test)
    (hvalid : ∀ v ∈ versions, (semverParse v).isSome = true)
    (m : String) (h : maxSatisfying versions range rsem = some m) :
    m ∈ versions ∧ test m = true ∧
      ∀ v ∈ versions, test v = true → semverCmpStr m v ≠ .lt := by
  unfold maxSatisfying at h
  rw [hr] at h
  rcases maxSatAux_mem test versions none m h with h' | h'
  · exact absurd h' (by simp)
  · have hmax := maxSatAux_max test versions none m hvalid
      (fun m0 e => absurd e (by simp)) h
    exact ⟨h'.1, h'.2, hmax.2⟩

/-- A `none` result of `maxSatisfying` on a valid range means no
candidate passes the range test. -/
theorem maxSatisfying_none_iff (versions : List String) (range : String)
    (rsem : String → Option (String → Bool)) (test : String → Bool)
    (hr : rsem range = some test) :
    maxSatisfying versions range rsem = none ↔ ∀ v ∈ versions, test v = false := by
  unfold maxSatisfying
  rw [hr]
  exact maxSatAux_none_iff test versions

/-- Shared helper: when both lockfile shapes miss, the reader returns
the "Not installed" sentinel. -/
theorem getInstalledVersion_notInstalled (packageName : String) (lock : Lockfile)
    (hp : lock.packages.bind (fun ps => ps.lookup ("node_modules/" ++ packageName)) = none)
    (hd : lock.dependencies.bind (fun ds => ds.lookup packageName) = none) :
    getInstalledVersion packageName lock = "Not installed" := by
  unfold getInstalledVersion
  rw [hp, hd]

/-! ## The claims -/

/-- C1: for every successfully classified dependency (the two skip
gates of src/index.js:165-183 do not fire), a row is pushed into the
report iff the show-all flag is set, or the installable version differs
from the locked one, or the latest version differs from the locked one;
with `all = false` the row appears iff one of the two drift flags holds,
and with `all = true` it always appears. -/
theorem C1_report_inclusion_rule (pj : Manifest) (lock : Lockfile)
    (registry : String → String → NpmAnswer) (rsem : String → Option (String → Bool))
    (all : Bool) (packageName versionRange : String)
    (h1 : getInstalledVersion packageName lock ≠ "Unable to determine")
    (h2 : (getInstallableVersion packageName pj registry rsem).value ≠ "Unable to determine")
    (h3 : (getLatestVersion packageName (registry packageName "latest") "latest" rsem).value
      ≠ "Unable to determine")
    (h4 : (semverValid (getInstalledVersion packageName lock)).isSome = true)
    (h5 : (semverValid
      (getInstallableVersion packageName pj registry rsem).value).isSome = true)
    (h6 : (semverValid
      (getLatestVersion packageName (registry packageName "latest") "latest"
        rsem).value).isSome = true) :
    ((processDependency pj lock registry rsem all packageName versionRange).row.isSome = true ↔
      (all = true ∨
        getInstalledVersion packageName lock
          ≠ (getInstallableVersion packageName pj registry rsem).value ∨
        getInstalledVersion packageName lock
          ≠ (getLatestVersion packageName (registry packageName "latest") "latest"
              rsem).value)) ∧
    (all = false →
      ((processDependency pj lock registry rsem all packageName versionRange).row.isSome = true ↔
        (getInstalledVersion packageName lock
            ≠ (getInstallableVersion packageName pj registry rsem).value ∨
          getInstalledVersion packageName lock
            ≠ (getLatestVersion packageName (registry packageName "latest") "latest"
                rsem).value))) ∧
    (all = true →
      (processDependency pj lock registry rsem all packageName versionRange).row.isSome
        = true) := by
  have g4 : ¬ ((semverValid (getInstalledVersion packageName lock)).isNone = true) := by
    rcases Option.isSome_iff_exists.mp h4 with ⟨s, hs⟩
    rw [hs]
    simp
  have g5 : ¬ ((semverValid
      (getInstallableVersion packageName pj registry rsem).value).isNone = true) := by
    rcases Option.isSome_iff_exists.mp h5 with ⟨s, hs⟩
    rw [hs]
    simp
  have g6 : ¬ ((semverValid
      (getLatestVersion packageName (registry packageName "latest") "latest"
        rsem).value).isNone = true) := by
    rcases Option.isSome_iff_exists.mp h6 with ⟨s, hs⟩
    rw [hs]
    simp
  have hmain : (processDependency pj lock registry rsem all packageName versionRange).row.isSome
        = true ↔
      (all = true ∨
        getInstalledVersion packageName lock
          ≠ (getInstallableVersion packageName pj registry rsem).value ∨
        getInstalledVersion packageName lock
          ≠ (getLatestVersion packageName (registry packageName "latest") "latest"
              rsem).value) := by
    rw [processDependency_def]
    rw [if_neg (by rintro (h | h | h); exacts [h1 h, h2 h, h3 h])]
    rw [if_neg (by rintro (h | h | h); exacts [g4 h, g5 h, g6 h])]
    by_cases hc : (all ||
        (classify (getInstalledVersion packageName lock)
          (getInstallableVersion packageName pj registry rsem).value
          (getLatestVersion packageName (registry packageName "latest") "latest"
            rsem).value).hasLatestChanged ||
        (classify (getInstalledVersion packageName lock)
          (getInstallableVersion packageName pj registry rsem).value
          (getLatestVersion packageName (registry packageName "latest") "latest"
            rsem).value).hasInstalledChanged) = true
    · rw [if_pos hc]
      simp only [classify, Bool.or_eq_true, bne_iff_ne] at hc
      simp only [Option.isSome_some, true_iff]
      rcases hc with (hc | hc) | hc
      · exact Or.inl hc
      · exact Or.inr (Or.inr hc)
      · exact Or.inr (Or.inl hc)
    · rw [if_neg hc]
      simp only [classify, Bool.or_eq_true, bne_iff_ne] at hc
      push_neg at hc
      simp only [Option.isSome_none]
      refine iff_of_false (by decide) ?_
      rintro (h | h | h)
      · exact hc.1.1 h
      · exact h hc.2
      · exact h hc.1.2
  refine ⟨hmain, ?_, ?_⟩
  · intro hall
    rw [hmain, hall]
    simp
  · intro hall
    rw [hmain]
    exact Or.inl hall

/-- C1 witness: a concrete dependency whose latest version drifted is
included with the show-all flag off. -/
theorem C1_report_inclusion_rule_witness :
    getInstalledVersion "left-pad" ⟨some [("node_modules/left-pad", ⟨"1.0.0"⟩)], none⟩
        ≠ "Unable to determine" ∧
    (semverValid (getInstalledVersion "left-pad"
        ⟨some [("node_modules/left-pad", ⟨"1.0.0"⟩)], none⟩)).isSome = true ∧
    (processDependency ⟨some [("left-pad", "^1.0.0")], none, none⟩
        ⟨some [("node_modules/left-pad", ⟨"1.0.0"⟩)], none⟩
        (fun _ spec => if spec = "^1.0.0" then NpmAnswer.jsonString "1.0.0"
          else NpmAnswer.jsonString "1.1.0")
        (fun r => if r = "^1.0.0" then some (fun v => v = "1.0.0") else none)
        false "left-pad" "^1.0.0").row.isSome = true := by
  refine ⟨by decide, by decide, ?_⟩
  exact (C1_report_inclusion_rule ⟨some [("left-pad", "^1.0.0")], none, none⟩
      ⟨some [("node_modules/left-pad", ⟨"1.0.0"⟩)], none⟩
      (fun _ spec => if spec = "^1.0.0" then NpmAnswer.jsonString "1.0.0"
        else NpmAnswer.jsonString "1.1.0")
      (fun r => if r = "^1.0.0" then some (fun v => v = "1.0.0") else none)
      false "left-pad" "^1.0.0"
      (by decide) (by decide) (by decide) (by decide) (by decide) (by decide)).1.mpr
    (Or.inr (Or.inr (by decide)))

/-- C2: the classifier computes `hasInstalledChanged` and
`hasLatestChanged` as plain string inequality between the resolved
version strings (src/index.js:185-186); on canonical (normalized)
version strings this is precisely "differ after normalization", and
`isMajorChange` holds iff the major components of locked and latest
differ (src/index.js:187-188). -/
theorem C2_classifier_flags (locked installable latest : String)
    (h1 : (semverValid locked).isSome = true)
    (h2 : (semverValid installable).isSome = true)
    (h3 : (semverValid latest).isSome = true) :
    ((classify locked installable latest).hasInstalledChanged = true ↔ installable ≠ locked) ∧
    ((classify locked installable latest).hasLatestChanged = true ↔ locked ≠ latest) ∧
    (semverValid locked = some locked → semverValid installable = some installable →
      ((classify locked installable latest).hasInstalledChanged = false ↔
        semverValid installable = semverValid locked)) ∧
    (semverValid locked = some locked → semverValid latest = some latest →
      ((classify locked installable latest).hasLatestChanged = false ↔
        semverValid locked = semverValid latest)) ∧
    ((classify locked installable latest).isMajorChange = true ↔
      semverMajor locked ≠ semverMajor latest) := by
  refine ⟨?_, ?_, ?_, ?_, ?_⟩
  · simp only [classify, bne_iff_ne]
    exact ne_comm
  · simp only [classify, bne_iff_ne]
  · intro hl hi
    simp only [classify, bne_eq_false_iff_eq]
    rw [hl, hi, Option.some_inj]
    exact eq_comm
  · intro hl ht
    simp only [classify, bne_eq_false_iff_eq]
    rw [hl, ht, Option.some_inj]
  · simp only [classify, bne_iff_ne]

/-- C2 witness: a patch-level drift between locked `1.2.3` and latest
`1.2.4` sets `hasLatestChanged` but not `isMajorChange`. -/
theorem C2_classifier_flags_witness :
    (semverValid "1.2.3").isSome = true ∧
    ((classify "1.2.3" "1.2.3" "1.2.4").hasLatestChanged = true ↔ "1.2.3" ≠ "1.2.4") ∧
    ((classify "1.2.3" "1.2.3" "1.2.4").hasInstalledChanged = false ↔
      semverValid "1.2.3" = semverValid "1.2.3") ∧
    ((classify "1.2.3" "1.2.3" "1.2.4").isMajorChange = true ↔
      semverMajor "1.2.3" ≠ semverMajor "1.2.4") := by
  have h := C2_classifier_flags "1.2.3" "1.2.3" "1.2.4" (by decide) (by decide) (by decide)
  exact ⟨by decide, h.2.1, h.2.2.1 (by decide) (by decide), h.2.2.2.2⟩

/-- C5: the lockfile reader tries the npm 7+ nested shape first
(`packages["node_modules/<name>"].version`), falls back to the legacy
flat shape (`dependencies[<name>].version`) — so a legacy-only lockfile
still resolves installed versions — and yields the "Not installed"
sentinel (never an error) when both shapes miss
(src/index.js:107-123). -/
theorem C5_lockfile_lookup (lock : Lockfile) (packageName : String) :
    (∀ e, lock.packages.bind (fun ps => ps.lookup ("node_modules/" ++ packageName)) = some e →
      getInstalledVersion packageName lock = e.version) ∧
    (lock.packages.bind (fun ps => ps.lookup ("node_modules/" ++ packageName)) = none →
      ∀ e, lock.dependencies.bind (fun ds => ds.lookup packageName) = some e →
        getInstalledVersion packageName lock = e.version) ∧
    (lock.packages.bind (fun ps => ps.lookup ("node_modules/" ++ packageName)) = none →
      lock.dependencies.bind (fun ds => ds.lookup packageName) = none →
      getInstalledVersion packageName lock = "Not installed") := by
  refine ⟨?_, ?_, ?_⟩
  · intro e he
    unfold getInstalledVersion
    rw [he]
  · intro hp e he
    unfold getInstalledVersion
    rw [hp, he]
  · intro hp hd
    exact getInstalledVersion_notInstalled packageName lock hp hd

/-- C5 witness: the three lookup paths on concrete lockfiles — nested
shape wins, legacy-only resolves through the fallback, and a miss in
both shapes yields the sentinel. -/
theorem C5_lockfile_lookup_witness :
    getInstalledVersion "left-pad"
        ⟨some [("node_modules/left-pad", ⟨"1.0.0"⟩)],
         some [("left-pad", ⟨"0.9.0"⟩)]⟩ = "1.0.0" ∧
    getInstalledVersion "left-pad" ⟨none, some [("left-pad", ⟨"0.9.0"⟩)]⟩ = "0.9.0" ∧
    getInstalledVersion "left-pad" ⟨some [("node_modules/chalk", ⟨"5.0.0"⟩)], none⟩
      = "Not installed" := by
  refine ⟨?_, ?_, ?_⟩
  · exact (C5_lockfile_lookup
      ⟨some [("node_modules/left-pad", ⟨"1.0.0"⟩)], some [("left-pad", ⟨"0.9.0"⟩)]⟩
      "left-pad").1 ⟨"1.0.0"⟩ (by decide)
  · exact (C5_lockfile_lookup ⟨none, some [("left-pad", ⟨"0.9.0"⟩)]⟩ "left-pad").2.1
      (by decide) ⟨"0.9.0"⟩ (by decide)
  · exact (C5_lockfile_lookup ⟨some [("node_modules/chalk", ⟨"5.0.0"⟩)], none⟩
      "left-pad").2.2 (by decide) (by decide)

/-- C10: a dependency absent from both lockfile shapes resolves to the
"Not installed" sentinel, which fails `semver.valid`, so the dependency
is skipped with a warning and never becomes a report row — for either
value of the show-all flag. -/
theorem C10_missing_dependency_skipped (pj : Manifest) (lock : Lockfile)
    (registry : String → String → NpmAnswer) (rsem : String → Option (String → Bool))
    (all : Bool) (packageName versionRange : String)
    (hp : lock.packages.bind (fun ps => ps.lookup ("node_modules/" ++ packageName)) = none)
    (hd : lock.dependencies.bind (fun ds => ds.lookup packageName) = none) :
    getInstalledVersion packageName lock = "Not installed" ∧
    semverValid "Not installed" = none ∧
    (processDependency pj lock registry rsem all packageName versionRange).row = none ∧
    (processDependency pj lock registry rsem all packageName versionRange).warnings ≠ [] := by
  have hni := getInstalledVersion_notInstalled packageName lock hp hd
  refine ⟨hni, by decide, ?_⟩
  rw [processDependency_def]
  by_cases hA : (getInstalledVersion packageName lock = "Unable to determine" ∨
      (getInstallableVersion packageName pj registry rsem).value = "Unable to determine" ∨
      (getLatestVersion packageName (registry packageName "latest") "latest" rsem).value
        = "Unable to determine")
  · rw [if_pos hA]
    exact ⟨rfl, by simp⟩
  · rw [if_neg hA]
    rw [if_pos (Or.inl (by rw [hni]; decide))]
    exact ⟨rfl, by simp⟩

/-- C10 witness: a manifest dependency missing from an otherwise
populated lockfile is skipped even though the show-all flag is on and
the registry resolves both queries. -/
theorem C10_missing_dependency_skipped_witness :
    (processDependency ⟨some [("left-pad", "^1.0.0")], none, none⟩
        ⟨some [("node_modules/chalk", ⟨"5.0.0"⟩)], none⟩
        (fun _ _ => NpmAnswer.jsonString "1.0.0")
        (fun r => if r = "^1.0.0" then some (fun v => v = "1.0.0") else none)
        true "left-pad" "^1.0.0").row = none ∧
    (processDependency ⟨some [("left-pad", "^1.0.0")], none, none⟩
        ⟨some [("node_modules/chalk", ⟨"5.0.0"⟩)], none⟩
        (fun _ _ => NpmAnswer.jsonString "1.0.0")
        (fun r => if r = "^1.0.0" then some (fun v => v = "1.0.0") else none)
        true "left-pad" "^1.0.0").warnings ≠ [] := by
  have h := C10_missing_dependency_skipped ⟨some [("left-pad", "^1.0.0")], none, none⟩
    ⟨some [("node_modules/chalk", ⟨"5.0.0"⟩)], none⟩
    (fun _ _ => NpmAnswer.jsonString "1.0.0")
    (fun r => if r = "^1.0.0" then some (fun v => v = "1.0.0") else none)
    true "left-pad" "^1.0.0" (by decide) (by decide)
  exact ⟨h.2.2.1, h.2.2.2⟩

/-- C6: a row is produced only when all three resolved versions pass
`semver.valid` (src/index.js:176-183); whenever they do not — which
covers every sentinel value, as the sentinel strings are not valid
semver — the dependency is skipped before classification with a
diagnostic warning and produces no row at all. -/
theorem C6_validity_invariant (pj : Manifest) (lock : Lockfile)
    (registry : String → String → NpmAnswer) (rsem : String → Option (String → Bool))
    (all : Bool) (packageName versionRange : String) :
    ((processDependency pj lock registry rsem all packageName versionRange).row.isSome = true →
      (semverValid (getInstalledVersion packageName lock)).isSome = true ∧
      (semverValid (getInstallableVersion packageName pj registry rsem).value).isSome = true ∧
      (semverValid (getLatestVersion packageName (registry packageName "latest") "latest"
          rsem).value).isSome = true) ∧
    (¬ ((semverValid (getInstalledVersion packageName lock)).isSome = true ∧
        (semverValid (getInstallableVersion packageName pj registry rsem).value).isSome
          = true ∧
        (semverValid (getLatestVersion packageName (registry packageName "latest") "latest"
            rsem).value).isSome = true) →
      (processDependency pj lock registry rsem all packageName versionRange).row = none ∧
      (processDependency pj lock registry rsem all packageName versionRange).warnings ≠ []) ∧
    (semverValid "Not installed" = none ∧ semverValid "Error fetching version" = none ∧
      semverValid "Unable to determine" = none ∧
      semverValid "Not found in package.json" = none) := by
  rw [processDependency_def]
  by_cases hA : (getInstalledVersion packageName lock = "Unable to determine" ∨
      (getInstallableVersion packageName pj registry rsem).value = "Unable to determine" ∨
      (getLatestVersion packageName (registry packageName "latest") "latest" rsem).value
        = "Unable to determine")
  · rw [if_pos hA]
    refine ⟨?_, fun _ => ⟨rfl, by simp⟩, by decide, by decide, by decide, by decide⟩
    intro h
    simp at h
  · rw [if_neg hA]
    by_cases hB : ((semverValid (getInstalledVersion packageName lock)).isNone = true ∨
        (semverValid (getInstallableVersion packageName pj registry rsem).value).isNone
          = true ∨
        (semverValid (getLatestVersion packageName (registry packageName "latest") "latest"
            rsem).value).isNone = true)
    · rw [if_pos hB]
      refine ⟨?_, fun _ => ⟨rfl, by simp⟩, by decide, by decide, by decide, by decide⟩
      intro h
      simp at h
    · rw [if_neg hB]
      have hv1 : (semverValid (getInstalledVersion packageName lock)).isSome = true := by
        cases h' : semverValid (getInstalledVersion packageName lock) with
        | none => exact absurd (Or.inl (by rw [h']; rfl)) hB
        | some s => rfl
      have hv2 : (semverValid
          (getInstallableVersion packageName pj registry rsem).value).isSome = true := by
        cases h' : semverValid (getInstallableVersion packageName pj registry rsem).value with
        | none => exact absurd (Or.inr (Or.inl (by rw [h']; rfl))) hB
        | some s => rfl
      have hv3 : (semverValid
          (getLatestVersion packageName (registry packageName "latest") "latest"
            rsem).value).isSome = true := by
        cases h' : semverValid
            (getLatestVersion packageName (registry packageName "latest") "latest"
              rsem).value with
        | none => exact absurd (Or.inr (Or.inr (by rw [h']; rfl))) hB
        | some s => rfl
      exact ⟨fun _ => ⟨hv1, hv2, hv3⟩, fun hcon => absurd ⟨hv1, hv2, hv3⟩ hcon,
        by decide, by decide, by decide, by decide⟩

/-- C6 witness: a registry timeout on the "latest" query leaves the
"Error fetching version" sentinel, which fails validation, so the
dependency is dropped with a warning. -/
theorem C6_validity_invariant_witness :
    (processDependency ⟨some [("left-pad", "^1.0.0")], none, none⟩
        ⟨some [("node_modules/left-pad", ⟨"1.0.0"⟩)], none⟩
        (fun _ spec => if spec = "^1.0.0" then NpmAnswer.jsonString "1.0.0"
          else NpmAnswer.execFailure "ETIMEDOUT")
        (fun r => if r = "^1.0.0" then some (fun v => v = "1.0.0") else none)
        false "left-pad" "^1.0.0").row = none ∧
    (processDependency ⟨some [("left-pad", "^1.0.0")], none, none⟩
        ⟨some [("node_modules/left-pad", ⟨"1.0.0"⟩)], none⟩
        (fun _ spec => if spec = "^1.0.0" then NpmAnswer.jsonString "1.0.0"
          else NpmAnswer.execFailure "ETIMEDOUT")
        (fun r => if r = "^1.0.0" then some (fun v => v = "1.0.0") else none)
        false "left-pad" "^1.0.0").warnings ≠ [] := by
  exact (C6_validity_invariant ⟨some [("left-pad", "^1.0.0")], none, none⟩
      ⟨some [("node_modules/left-pad", ⟨"1.0.0"⟩)], none⟩
      (fun _ spec => if spec = "^1.0.0" then NpmAnswer.jsonString "1.0.0"
        else NpmAnswer.execFailure "ETIMEDOUT")
      (fun r => if r = "^1.0.0" then some (fun v => v = "1.0.0") else none)
      false "left-pad" "^1.0.0").2.1 (by decide)

theorem renderCells_def (versionRange installedVersion installableVersion latestVersion :
    String) :
    renderCells versionRange installedVersion installableVersion latestVersion
      = if (classify installedVersion installableVersion latestVersion).hasLatestChanged then
          if (classify installedVersion installableVersion latestVersion).isMajorChange then
            ⟨chalkRed installedVersion,
             chalkYellow installableVersion ++ chalkItalicGray (" (" ++ versionRange ++ ")"),
             chalkRed latestVersion ++
               chalkItalicGray
                 (" (" ++ diffToStr (semverDiff installedVersion latestVersion) ++ ")")⟩
          else
            ⟨chalkYellow installedVersion,
             chalkYellow installableVersion ++ chalkItalicGray (" (" ++ versionRange ++ ")"),
             chalkYellow latestVersion ++
               chalkItalicGray
                 (" (" ++ diffToStr (semverDiff installedVersion latestVersion) ++ ")")⟩
        else if (classify installedVersion installableVersion
            latestVersion).hasInstalledChanged then
          ⟨chalkYellow installedVersion,
           chalkYellow installableVersion ++ chalkItalicGray (" (" ++ versionRange ++ ")") ++
             chalkItalicGray
               (" (" ++ diffToStr (semverDiff installedVersion installableVersion) ++ ")"),
           chalkGreen latestVersion⟩
        else
          ⟨chalkGreen installedVersion,
           chalkGreen installableVersion ++ chalkItalicGray (" (" ++ versionRange ++ ")"),
           chalkGreen latestVersion⟩ := rfl

/-- C7: severity and diff-kind follow the precedence of
src/index.js:190-223 — a latest-vs-locked drift is rendered first (red
on a major change, yellow otherwise, the latest cell annotated with
`semver.diff(locked, latest)`); otherwise an installable-vs-locked
drift is rendered in yellow with the installable cell annotated with
`semver.diff(locked, installable)`; otherwise everything is green with
no diff annotation. -/
theorem C7_severity_precedence (versionRange installedVersion installableVersion
    latestVersion : String) :
    ((classify installedVersion installableVersion latestVersion).hasLatestChanged = true →
      (classify installedVersion installableVersion latestVersion).isMajorChange = true →
      renderCells versionRange installedVersion installableVersion latestVersion
        = ⟨chalkRed installedVersion,
           chalkYellow installableVersion ++ chalkItalicGray (" (" ++ versionRange ++ ")"),
           chalkRed latestVersion ++
             chalkItalicGray
               (" (" ++ diffToStr (semverDiff installedVersion latestVersion) ++ ")")⟩) ∧
    ((classify installedVersion installableVersion latestVersion).hasLatestChanged = true →
      (classify installedVersion installableVersion latestVersion).isMajorChange = false →
      renderCells versionRange installedVersion installableVersion latestVersion
        = ⟨chalkYellow installedVersion,
           chalkYellow installableVersion ++ chalkItalicGray (" (" ++ versionRange ++ ")"),
           chalkYellow latestVersion ++
             chalkItalicGray
               (" (" ++ diffToStr (semverDiff installedVersion latestVersion) ++ ")")⟩) ∧
    ((classify installedVersion installableVersion latestVersion).hasLatestChanged = false →
      (classify installedVersion installableVersion latestVersion).hasInstalledChanged = true →
      renderCells versionRange installedVersion installableVersion latestVersion
        = ⟨chalkYellow installedVersion,
           chalkYellow installableVersion ++ chalkItalicGray (" (" ++ versionRange ++ ")") ++
             chalkItalicGray
               (" (" ++ diffToStr (semverDiff installedVersion installableVersion) ++ ")"),
           chalkGreen latestVersion⟩) ∧
    ((classify installedVersion installableVersion latestVersion).hasLatestChanged = false →
      (classify installedVersion installableVersion latestVersion).hasInstalledChanged
        = false →
      renderCells versionRange installedVersion installableVersion latestVersion
        = ⟨chalkGreen installedVersion,
           chalkGreen installableVersion ++ chalkItalicGray (" (" ++ versionRange ++ ")"),
           chalkGreen latestVersion⟩) := by
  refine ⟨?_, ?_, ?_, ?_⟩
  · intro hl hm
    rw [renderCells_def, if_pos hl, if_pos hm]
  · intro hl hm
    rw [renderCells_def, if_pos hl, if_neg (by rw [hm]; exact Bool.false_ne_true)]
  · intro hl hi
    rw [renderCells_def, if_neg (by rw [hl]; exact Bool.false_ne_true), if_pos hi]
  · intro hl hi
    rw [renderCells_def, if_neg (by rw [hl]; exact Bool.false_ne_true),
      if_neg (by rw [hi]; exact Bool.false_ne_true)]

/-- C7 witness: a major drift from locked `1.0.0` to latest `2.0.0`
renders locked and latest in red with the `(major)` annotation. -/
theorem C7_severity_precedence_witness :
    (classify "1.0.0" "1.5.0" "2.0.0").hasLatestChanged = true ∧
    (classify "1.0.0" "1.5.0" "2.0.0").isMajorChange = true ∧
    renderCells "^1.0.0" "1.0.0" "1.5.0" "2.0.0"
      = ⟨chalkRed "1.0.0",
         chalkYellow "1.5.0" ++ chalkItalicGray (" (" ++ "^1.0.0" ++ ")"),
         chalkRed "2.0.0" ++
           chalkItalicGray (" (" ++ diffToStr (semverDiff "1.0.0" "2.0.0") ++ ")")⟩ := by
  exact ⟨by decide, by decide,
    (C7_severity_precedence "^1.0.0" "1.0.0" "1.5.0" "2.0.0").1 (by decide) (by decide)⟩

/-- C3: on a non-failure registry answer, the resolver normalizes it to
a list, keeps only syntactically valid semver entries and — when that
filtered list is nonempty — returns `semver.maxSatisfying` over it (a
member passing the range test that compares at least as high as every
passing member); when the range matches no candidate (or the range text
is not a valid range, as for the `latest` tag), it falls back to the
last entry of the filtered list instead of failing
(src/index.js:64-88). -/
theorem C3_resolver_selection (packageName : String) (ans : NpmAnswer) (versionRange : String)
    (rsem : String → Option (String → Bool)) (test : String → Bool)
    (hfail : ∀ msg, ans ≠ NpmAnswer.execFailure msg)
    (hr : rsem versionRange = some test)
    (hne : (normalizeAnswer ans).filter (fun v => (semverValid v).isSome) ≠ []) :
    (∀ m, maxSatisfying ((normalizeAnswer ans).filter (fun v => (semverValid v).isSome))
        versionRange rsem = some m →
      (getLatestVersion packageName ans versionRange rsem).value = m ∧
      m ∈ (normalizeAnswer ans).filter (fun v => (semverValid v).isSome) ∧
      test m = true ∧
      ∀ v ∈ (normalizeAnswer ans).filter (fun v => (semverValid v).isSome),
        test v = true → semverCmpStr m v ≠ .lt) ∧
    (maxSatisfying ((normalizeAnswer ans).filter (fun v => (semverValid v).isSome))
        versionRange rsem = none →
      (∀ v ∈ (normalizeAnswer ans).filter (fun v => (semverValid v).isSome), test v = false) ∧
      (getLatestVersion packageName ans versionRange rsem).value
        = ((normalizeAnswer ans).filter (fun v => (semverValid v).isSome)).getLastD "") := by
  rw [getLatestVersion_nonFailure packageName ans versionRange rsem hfail,
    getLatestFromList_def]
  have hemp : ((normalizeAnswer ans).filter (fun v => (semverValid v).isSome)).isEmpty
      = false := by
    cases hF : (normalizeAnswer ans).filter (fun v => (semverValid v).isSome) with
    | nil => exact absurd hF hne
    | cons a l => rfl
  rw [if_neg (fun hcon => by rw [hemp] at hcon; exact Bool.false_ne_true hcon)]
  have hvalid : ∀ v ∈ (normalizeAnswer ans).filter (fun v => (semverValid v).isSome),
      (semverParse v).isSome = true := by
    intro v hv
    have hmem := (List.mem_filter.mp hv).2
    rw [← semverValid_isSome_iff_parse]
    exact hmem
  refine ⟨?_, ?_⟩
  · intro m hm
    have spec := maxSatisfying_some_spec _ _ _ _ hr hvalid m hm
    refine ⟨?_, spec.1, spec.2.1, spec.2.2⟩
    show (maxSatisfying _ _ _).getD _ = m
    rw [hm]
    rfl
  · intro hmnone
    refine ⟨(maxSatisfying_none_iff _ _ _ _ hr).mp hmnone, ?_⟩
    show (maxSatisfying _ _ _).getD _ = _
    rw [hmnone]
    rfl

/-- C3 witness: among the valid candidates, the range test selects the
semver-maximum satisfying version `1.5.0`, not the list maximum
`2.0.0`. -/
theorem C3_resolver_selection_witness :
    (getLatestVersion "left-pad" (NpmAnswer.jsonArray ["1.0.0", "2.0.0", "1.5.0"]) "^1.0.0"
        (fun r => if r = "^1.0.0" then some (fun v => v == "1.0.0" || v == "1.5.0")
          else none)).value = "1.5.0" ∧
    "1.5.0" ∈ (normalizeAnswer (NpmAnswer.jsonArray ["1.0.0", "2.0.0", "1.5.0"])).filter
      (fun v => (semverValid v).isSome) ∧
    ("1.5.0" == "1.0.0" || "1.5.0" == "1.5.0") = true ∧
    semverCmpStr "1.5.0" "1.0.0" ≠ .lt := by
  have h := (C3_resolver_selection "left-pad"
    (NpmAnswer.jsonArray ["1.0.0", "2.0.0", "1.5.0"]) "^1.0.0"
    (fun r => if r = "^1.0.0" then some (fun v => v == "1.0.0" || v == "1.5.0") else none)
    (fun v => v == "1.0.0" || v == "1.5.0")
    (fun msg hcon => NpmAnswer.noConfusion hcon) rfl (by decide)).1 "1.5.0" (by decide)
  exact ⟨h.1, h.2.1, h.2.2.1, h.2.2.2 "1.0.0" (by decide) (by decide)⟩

/-- C4 counterexample: output that is not JSON does NOT produce the
"registry lookup error" sentinel — the line scraper runs instead, and
with nothing quotable the result is the "no valid version found"
sentinel. -/
theorem C4_counterexample :
    (getLatestVersion "left-pad" (NpmAnswer.nonJson "registry said: no such dist-tag")
        "^1.0.0" (fun _ => none)).value = "Unable to determine" ∧
    (getLatestVersion "left-pad" (NpmAnswer.nonJson "registry said: no such dist-tag")
        "^1.0.0" (fun _ => none)).value ≠ "Error fetching version" := by
  exact ⟨by decide, by decide⟩

/-- C4 (amended): the resolver never raises — a thrown subprocess error
(timeout, non-zero exit) yields the "Error fetching version" sentinel
with a warning; non-JSON output instead goes through the line-by-line
fallback parse, and whenever the filtered candidate list is empty the
result is the "Unable to determine" sentinel with a warning; being a
total function, the resolver returns a value in every case
(src/index.js:56-93). -/
theorem C4_resolver_sentinels (packageName : String) (ans : NpmAnswer)
    (versionRange : String) (rsem : String → Option (String → Bool)) :
    (∀ msg, ans = NpmAnswer.execFailure msg →
      (getLatestVersion packageName ans versionRange rsem).value = "Error fetching version" ∧
      (getLatestVersion packageName ans versionRange rsem).warnings ≠ []) ∧
    ((∀ msg, ans ≠ NpmAnswer.execFailure msg) →
      (normalizeAnswer ans).filter (fun v => (semverValid v).isSome) = [] →
      (getLatestVersion packageName ans versionRange rsem).value = "Unable to determine" ∧
      (getLatestVersion packageName ans versionRange rsem).warnings ≠ []) := by
  refine ⟨?_, ?_⟩
  · intro msg h
    rw [h]
    exact ⟨rfl, fun hcon => List.noConfusion hcon⟩
  · intro hf hempty
    rw [getLatestVersion_nonFailure packageName ans versionRange rsem hf,
      getLatestFromList_def]
    rw [if_pos (by rw [hempty]; rfl)]
    exact ⟨rfl, by simp⟩

/-- C4 witness: a timeout produces the error sentinel; an empty answer
produces the no-valid-version sentinel. -/
theorem C4_resolver_sentinels_witness :
    (getLatestVersion "left-pad" (NpmAnswer.execFailure "ETIMEDOUT") "^1.0.0"
        (fun _ => none)).value = "Error fetching version" ∧
    (getLatestVersion "left-pad" (NpmAnswer.jsonArray []) "^1.0.0"
        (fun _ => none)).value = "Unable to determine" := by
  exact ⟨((C4_resolver_sentinels "left-pad" (NpmAnswer.execFailure "ETIMEDOUT") "^1.0.0"
      (fun _ => none)).1 "ETIMEDOUT" rfl).1,
    ((C4_resolver_sentinels "left-pad" (NpmAnswer.jsonArray []) "^1.0.0"
      (fun _ => none)).2 (fun msg hcon => NpmAnswer.noConfusion hcon) (by decide)).1⟩

/-- C8: when zero rows qualify after processing every dependency, the
final report is exactly the single synthetic full-width "no differences"
row (src/index.js:239-249); in particular the left-pad empty-diff
scenario produces exactly that row. -/
theorem C8_no_diff_synthetic_row (pj : Manifest) (lock : Lockfile)
    (registry : String → String → NpmAnswer) (rsem : String → Option (String → Bool))
    (all : Bool) :
    (tableRows pj lock registry rsem all = [] →
      finalTable pj lock registry rsem all = [TableRow.fullWidth noDiffMessage]) ∧
    finalTable ⟨some [("left-pad", "1.0.0")], none, none⟩
        ⟨some [("node_modules/left-pad", ⟨"1.0.0"⟩)], none⟩
        (fun _ _ => NpmAnswer.jsonString "1.0.0")
        (fun r => if r = "1.0.0" then some (fun v => v = "1.0.0") else none)
        false
      = [TableRow.fullWidth noDiffMessage] := by
  refine ⟨?_, by decide⟩
  intro h
  unfold finalTable
  rw [h]
  rfl

/-- C8 witness: with no dependencies at all, zero rows qualify and the
report is the synthetic row. -/
theorem C8_no_diff_synthetic_row_witness :
    tableRows ⟨none, none, none⟩ ⟨none, none⟩ (fun _ _ => NpmAnswer.execFailure "offline")
        (fun _ => none) false = [] ∧
    finalTable ⟨none, none, none⟩ ⟨none, none⟩ (fun _ _ => NpmAnswer.execFailure "offline")
        (fun _ => none) false = [TableRow.fullWidth noDiffMessage] := by
  exact ⟨by decide, (C8_no_diff_synthetic_row ⟨none, none, none⟩ ⟨none, none⟩
    (fun _ _ => NpmAnswer.execFailure "offline") (fun _ => none) false).1 (by decide)⟩

/-! ## List helpers for the merged-dependency analysis -/

theorem lookup_mem_map_fst {β : Type} : ∀ (l : List (String × β)) (k : String) (v : β),
    l.lookup k = some v → k ∈ l.map Prod.fst := by
  intro l
  induction l with
  | nil => intro k v h; exact absurd h (by simp)
  | cons p t ih =>
    intro k v h
    have e : List.lookup k (p :: t)
        = match k == p.1 with
          | true => some p.2
          | false => List.lookup k t := rfl
    rw [e] at h
    cases hka : k == p.1 with
    | true =>
      rw [List.map_cons, eq_of_beq hka]
      exact List.mem_cons_self _ _
    | false =>
      rw [hka] at h
      rw [List.map_cons]
      exact List.mem_cons_of_mem _ (ih k v h)

theorem dedupFirstAux_unfold_cons (seen : List String) (a : String) (t : List String) :
    dedupFirstAux seen (a :: t)
      = if seen.contains a then dedupFirstAux seen t
        else a :: dedupFirstAux (a :: seen) t := rfl

theorem dedupFirstAux_nodup : ∀ (l seen : List String),
    (dedupFirstAux seen l).Nodup ∧ ∀ k ∈ dedupFirstAux seen l, k ∉ seen := by
  intro l
  induction l with
  | nil => intro seen; exact ⟨List.nodup_nil, by simp [dedupFirstAux]⟩
  | cons a t ih =>
    intro seen
    by_cases ha : seen.contains a = true
    · rw [dedupFirstAux_unfold_cons, if_pos ha]
      exact ih seen
    · rw [dedupFirstAux_unfold_cons, if_neg ha]
      obtain ⟨nd, hni⟩ := ih (a :: seen)
      have hna : a ∉ dedupFirstAux (a :: seen) t :=
        fun hmem => (hni a hmem) (List.mem_cons_self a seen)
      refine ⟨List.nodup_cons.mpr ⟨hna, nd⟩, ?_⟩
      intro k hk
      rcases List.mem_cons.mp hk with hk' | hk'
      · rw [hk']; intro hcon; exact ha (List.elem_iff.mpr hcon)
      · intro hcon; exact (hni k hk') (List.mem_cons_of_mem a hcon)

theorem dedupFirstAux_mem : ∀ (l seen : List String) (k : String),
    k ∈ dedupFirstAux seen l ↔ (k ∈ l ∧ k ∉ seen) := by
  intro l
  induction l with
  | nil => intro seen k; simp [dedupFirstAux]
  | cons a t ih =>
    intro seen k
    by_cases ha : seen.contains a = true
    · rw [dedupFirstAux_unfold_cons, if_pos ha, ih seen k]
      have haa : a ∈ seen := List.elem_iff.mp ha
      constructor
      · rintro ⟨hkt, hks⟩; exact ⟨List.mem_cons_of_mem a hkt, hks⟩
      · rintro ⟨hk, hks⟩
        rcases List.mem_cons.mp hk with h' | h'
        · rw [h'] at hks; exact absurd haa hks
        · exact ⟨h', hks⟩
    · rw [dedupFirstAux_unfold_cons, if_neg ha]
      constructor
      · intro hk
        rcases List.mem_cons.mp hk with h' | h'
        · refine ⟨by rw [h']; exact List.mem_cons_self a t, ?_⟩
          intro hcon
          rw [h'] at hcon
          exact ha (List.elem_iff.mpr hcon)
        · obtain ⟨hkt, hkas⟩ := (ih (a :: seen) k).mp h'
          exact ⟨List.mem_cons_of_mem a hkt, fun hcon => hkas (List.mem_cons_of_mem a hcon)⟩
      · rintro ⟨hk, hks⟩
        rcases List.mem_cons.mp hk with h' | h'
        · rw [h']; exact List.mem_cons_self a _
        · by_cases hka : k = a
          · rw [hka]; exact List.mem_cons_self a _
          · refine List.mem_cons.mpr (Or.inr ((ih (a :: seen) k).mpr ⟨h', ?_⟩))
            intro hcon
            rcases List.mem_cons.mp hcon with h'' | h''
            · exact hka h''
            · exact hks h''

theorem lookup_map_pair (f : String → String) : ∀ (keys : List String) (k : String),
    k ∈ keys → List.lookup k (keys.map (fun x => (x, f x))) = some (f k) := by
  intro keys
  induction keys with
  | nil => intro k hk; exact absurd hk (by simp)
  | cons a t ih =>
    intro k hk
    rw [List.map_cons]
    have e : List.lookup k ((a, f a) :: t.map (fun x => (x, f x)))
        = match k == a with
          | true => some (f a)
          | false => List.lookup k (t.map (fun x => (x, f x))) := rfl
    rw [e]
    cases hka : k == a with
    | true => rw [eq_of_beq hka]
    | false =>
      show List.lookup k (t.map (fun x => (x, f x))) = some (f k)
      refine ih k ?_
      rcases List.mem_cons.mp hk with h' | h'
      · exact absurd h' (ne_of_beq_false hka)
      · exact h'

/-- C9 counterexample: with `foo` in both `dependencies` (`^1.0.0`) and
`devDependencies` (`^2.0.0`), object spread makes the LAST category's
range the merged value, so the row annotation shows `(^2.0.0)` — not
the first category's `^1.0.0` as the claim states. -/
theorem C9_shown_range_counterexample :
    mergedDependencies ⟨some [("foo", "^1.0.0")], some [("foo", "^2.0.0")], none⟩
      = [("foo", "^2.0.0")] ∧
    (tableRows ⟨some [("foo", "^1.0.0")], some [("foo", "^2.0.0")], none⟩
        ⟨some [("node_modules/foo", ⟨"1.0.0"⟩)], none⟩
        (fun _ spec => if spec = "^1.0.0" then NpmAnswer.jsonString "1.2.0"
          else NpmAnswer.jsonString "1.3.0")
        (fun r => if r = "^1.0.0" then some (fun v => v == "1.2.0") else none)
        false).map Row.installable
      = [chalkYellow "1.2.0" ++ chalkItalicGray (" (" ++ "^2.0.0" ++ ")")] ∧
    chalkItalicGray (" (" ++ "^2.0.0" ++ ")") ≠ chalkItalicGray (" (" ++ "^1.0.0" ++ ")") := by
  exact ⟨by decide, by decide, by decide⟩

/-- C9 (amended): a name duplicated across `dependencies` and
`devDependencies` is processed once (the merged mapping has exactly one
entry for it, at its first-insertion position), is attributed to the
first category in {dependencies, devDependencies, peerDependencies}
order, and the range used to RESOLVE the installable version is the
first category's (the `||`-chain of `getInstallableVersion`); the range
ANNOTATION shown in the row, however, comes from the merged spread
where the last category containing the name wins
(src/index.js:95-105, 126-130, 150-156). -/
theorem C9_first_category_semantics (deps dev : List (String × String))
    (name r1 r2 : String)
    (hd : deps.lookup name = some r1) (hv : dev.lookup name = some r2) (h1 : r1 ≠ "") :
    dependencyTypeOf ⟨some deps, some dev, none⟩ name = "dependencies" ∧
    manifestRange ⟨some deps, some dev, none⟩ name = some r1 ∧
    (mergedDependencies ⟨some deps, some dev, none⟩).lookup name = some r2 ∧
    ((mergedDependencies ⟨some deps, some dev, none⟩).map Prod.fst).count name = 1 := by
  have htruthy : truthyStr (jsLookup (some deps) name) = some r1 := by
    unfold jsLookup truthyStr
    show (deps.lookup name).bind _ = some r1
    rw [hd]
    show (if r1 = "" then none else some r1) = some r1
    rw [if_neg h1]
  refine ⟨?_, ?_, ?_, ?_⟩
  · unfold dependencyTypeOf
    rw [htruthy]
    rfl
  · unfold manifestRange
    rw [htruthy]
    rfl
  · have hmem : name ∈ dedupFirstAux []
        (deps.map Prod.fst ++ dev.map Prod.fst ++ []) := by
      rw [dedupFirstAux_mem]
      refine ⟨?_, by simp⟩
      refine List.mem_append.mpr (Or.inl (List.mem_append.mpr (Or.inl ?_)))
      exact lookup_mem_map_fst deps name r1 hd
    show List.lookup name
        ((dedupFirstAux [] (deps.map Prod.fst ++ dev.map Prod.fst ++ [])).map
          (fun k => (k, (jsLookup (none : Option (List (String × String))) k <|>
            jsLookup (some dev) k <|> jsLookup (some deps) k).getD "")))
      = some r2
    rw [lookup_map_pair _ _ name hmem]
    have hval : (jsLookup (none : Option (List (String × String))) name <|>
        jsLookup (some dev) name <|> jsLookup (some deps) name) = some r2 := by
      unfold jsLookup
      show (none <|> (dev.lookup name <|> deps.lookup name)) = some r2
      rw [hv]
      rfl
    rw [hval]
    rfl
  · have hnd := (dedupFirstAux_nodup
      (deps.map Prod.fst ++ dev.map Prod.fst ++ []) []).1
    have hmem : name ∈ dedupFirstAux []
        (deps.map Prod.fst ++ dev.map Prod.fst ++ []) := by
      rw [dedupFirstAux_mem]
      refine ⟨?_, by simp⟩
      refine List.mem_append.mpr (Or.inl (List.mem_append.mpr (Or.inl ?_)))
      exact lookup_mem_map_fst deps name r1 hd
    show (List.map Prod.fst
        ((dedupFirstAux [] (deps.map Prod.fst ++ dev.map Prod.fst ++ [])).map
          (fun k => (k, (jsLookup (none : Option (List (String × String))) k <|>
            jsLookup (some dev) k <|> jsLookup (some deps) k).getD "")))).count name = 1
    rw [List.map_map]
    have hcomp : (Prod.fst ∘ fun k : String =>
        ((k, (jsLookup (none : Option (List (String × String))) k <|>
          jsLookup (some dev) k <|> jsLookup (some deps) k).getD "") : String × String))
        = id := funext fun k => rfl
    rw [hcomp, List.map_id]
    exact List.count_eq_one_of_mem hnd hmem

/-- C9 witness: the concrete duplicated `foo` manifest — attributed to
`dependencies`, resolved with `^1.0.0`, merged once with the
`devDependencies` range as merged value. -/
theorem C9_first_category_semantics_witness :
    dependencyTypeOf ⟨some [("foo", "^1.0.0")], some [("foo", "^2.0.0")], none⟩ "foo"
      = "dependencies" ∧
    manifestRange ⟨some [("foo", "^1.0.0")], some [("foo", "^2.0.0")], none⟩ "foo"
      = some "^1.0.0" ∧
    (mergedDependencies
        ⟨some [("foo", "^1.0.0")], some [("foo", "^2.0.0")], none⟩).lookup "foo"
      = some "^2.0.0" ∧
    ((mergedDependencies
        ⟨some [("foo", "^1.0.0")], some [("foo", "^2.0.0")], none⟩).map Prod.fst).count "foo"
      = 1 :=
  C9_first_category_semantics [("foo", "^1.0.0")] [("foo", "^2.0.0")] "foo" "^1.0.0" "^2.0.0"
    (by decide) (by decide) (by decide)

